import Mathlib

/-!
Verification development for the BlueArcbox resources scripts.

The Python scripts are shallowly embedded: dict records become structures
(a key that may be absent becomes an `Option` field), in-place mutation of
shared dict references is made observable by tagging every record with its
origin index in the input list, and operations that can raise (`KeyError`,
`IndexError`) return `Option`.
-/

set_option maxHeartbeats 1000000
set_option maxRecDepth 10000

/-! ## Python-style string primitives

Core `String.replace` and friends do not reduce in the kernel, so the
Python string operations are modelled on the underlying character lists.
-/

/-- Replacement of every non-overlapping occurrence of `pat` (non-empty)
by `rep`, scanning left to right: the semantics of Python `str.replace`.
Recursion is driven by a fuel argument so that the kernel can evaluate
it; every step consumes at least one character, so fuel equal to the
length of the scanned list is always sufficient (the fuel-exhausted
branch is unreachable and returns the rest unchanged). -/
def replaceLF (pat rep : List Char) : Nat → List Char → List Char
  | _, [] => []
  | 0, l => l
  | fuel + 1, c :: cs =>
    if pat ≠ [] ∧ pat.isPrefixOf (c :: cs) then
      rep ++ replaceLF pat rep fuel (List.drop pat.length (c :: cs))
    else
      c :: replaceLF pat rep fuel cs

/-- Python `s.replace(pat, rep)` for a non-empty pattern. -/
def pyReplace (s pat rep : String) : String :=
  ⟨replaceLF pat.data rep.data s.data.length s.data⟩

/-- Splits the list at the first occurrence of the non-empty separator
`pat`, returning the part before it and the part after it. -/
def splitFirst (pat : List Char) : List Char → Option (List Char × List Char)
  | [] => none
  | c :: cs =>
    if pat ≠ [] ∧ pat.isPrefixOf (c :: cs) then
      some ([], List.drop pat.length (c :: cs))
    else
      (splitFirst pat cs).map (fun p => (c :: p.1, p.2))

/-- Python `s.split(sep)` for a non-empty separator, on character lists,
with the same sufficient-fuel scheme as `replaceLF` (each split strictly
shortens the remainder, see `splitFirst_shorter`). -/
def splitLF (pat : List Char) : Nat → List Char → List (List Char)
  | 0, l => [l]
  | fuel + 1, l =>
    match splitFirst pat l with
    | none => [l]
    | some p => p.1 :: splitLF pat fuel p.2

/-- Python `s.split(sep)` for a non-empty separator, on character lists. -/
def splitL (pat : List Char) (l : List Char) : List (List Char) :=
  splitLF pat l.length l

/-- Python `s.startswith(pat)`. -/
def pyStartsWith (s pat : String) : Bool :=
  pat.data.isPrefixOf s.data

/-- Python `s.split(sep)[-1]` used to derive a file name from a URL. -/
def lastSegment (s sep : String) : String :=
  ⟨(splitL sep.data s.data).getLastD []⟩

/-- The apostrophe character, written via its code point. -/
def apostrophe : String := String.singleton (Char.ofNat 39)

/-- Group keys in first-occurrence order: the iteration order of a
Python dict built by appending. -/
def firstKeys : List Int → List Int
  | [] => []
  | x :: xs => x :: (firstKeys xs).filter (fun y => y ≠ x)

namespace BondStory

/-! ## Data model of scripts/bondstory.py

A dialogue record of `AcademyMessangerExcelTable` (and of the template
items built inside the script).  Keys that may be absent from the dict
are `Option` fields: `NextId` is absent from `TEMPLATE_ITEM`, and the
language texts may be absent from source records (`get_result_item`
guards them with an `in` check).  `MessageId`, `Typ` and `Flag` are
always written by `process_student_story` before they are read, so they
are plain fields; `Typ` renders the source key `Type`, which is a
reserved word in Lean. -/
structure Item where
  MessageGroupId : Int := 0
  Id : Int := 0
  CharacterId : Int := 0
  MessageCondition : String := ""
  ConditionValue : Int := 0
  PreConditionGroupId : Int := 0
  PreConditionFavorScheduleId : Int := 0
  FavorScheduleId : Int := 0
  NextGroupId : Int := 0
  FeedbackTimeMillisec : Int := 0
  MessageType : String := "Text"
  ImagePath : String := ""
  MessageKR : Option String := none
  MessageJP : Option String := none
  MessageTH : Option String := none
  MessageTW : Option String := none
  MessageEN : Option String := none
  MessageId : Int := 0
  NextId : Option Int := none
  Typ : Int := 0
  Flag : Int := 0
deriving DecidableEq

/-- The student info dict passed to `process_student_story`: the key
`id` plus the localized names accessed with `student.get(lng, "")`. -/
structure StudentInfo where
  id : Int := 0
  jp : Option String := none
  kr : Option String := none
  tw : Option String := none
  en : Option String := none
deriving DecidableEq

/-- The record shape produced by `get_result_item`. -/
structure ResItem where
  MessageId : Int
  Flag : Int
  Typ : Int
  NextId : Int
  MessageType : String
  ImagePath : String
  MessageJP : String
  MessageKR : String
  MessageTW : String
  MessageEN : String
deriving DecidableEq

/-- The story info dict inserted at position 0 of the returned list. -/
structure StoryInfo where
  CharacterId : Int
  MessageJP : String
  MessageKR : String
  MessageTW : String
  MessageEN : String
deriving DecidableEq

/-- A working record paired with its identity: `some i` marks the dict
that was element `i` of the input `chat_list` (the list copy in the
script is shallow, so these dicts are shared with the caller), `none`
marks a fresh template dict created inside the call. -/
abbrev Tagged := Option Nat × Item

/-- TEMPLATE_ITEM of the script (`MessageId`, `NextId`, `Type`, `Flag`
keys are absent from the dict; `NextId := none` models that absence). -/
def templateItem : Item :=
  { MessageGroupId := 0
    Id := 0
    CharacterId := 10004
    MessageCondition := ""
    ConditionValue := 0
    PreConditionGroupId := 0
    PreConditionFavorScheduleId := 0
    FavorScheduleId := 0
    NextGroupId := 0
    FeedbackTimeMillisec := 0
    MessageType := "Text"
    ImagePath := ""
    MessageKR := some ""
    MessageJP := some ""
    MessageTH := some ""
    MessageTW := some ""
    MessageEN := some ""
    MessageId := 0
    NextId := none
    Typ := 0
    Flag := 0 }

/-- `get_item_read(item)`: the "既読" system message template. -/
def get_item_read (it : Item) : Item :=
  { templateItem with
    MessageGroupId := it.MessageGroupId - 10000
    MessageCondition := "FavorRankUp"
    NextGroupId := it.MessageGroupId
    MessageKR := some "읽혔습니다"
    MessageJP := some "既読"
    MessageTW := some "已讀"
    MessageEN := some "Message read" }

/-- `get_item_bond_story(item, student_name)`: the "絆ストーリーへ"
message template. -/
def get_item_bond_story (it : Item) (st : StudentInfo) : Item :=
  { templateItem with
    MessageGroupId := it.MessageGroupId - 10000
    Id := 1
    MessageCondition := "momotalkStory"
    NextGroupId := it.MessageGroupId
    MessageKR := some ((st.kr.getD "") ++ "의 인연스토리로")
    MessageJP := some ((st.jp.getD "") ++ "の絆イベントへ")
    MessageTW := some ("前往" ++ (st.tw.getD "") ++ "的羈絆劇情")
    MessageEN := some ("Go to " ++ (st.en.getD "") ++ apostrophe ++ "s Bond Story") }

/-- One record of the sweep `for item_ in data: if item_["MessageGroupId"]
== last_message: item_["NextGroupId"] = ...`. -/
def sweepItem (g v : Int) (it : Item) : Item :=
  if it.MessageGroupId = g then { it with NextGroupId := v } else it

/-- The sweep applied to a list of records. -/
def sweepNextGroup (g v : Int) (l : List Tagged) : List Tagged :=
  l.map (fun t => (t.1, sweepItem g v t.2))

/-- The first `for i, item in enumerate(data)` loop of
`process_student_story` (system-message and bond-story insertion).
`revPre` is the already visited portion of `data` in reverse order.
Inserting `get_item_read` before the current item and continuing the
iteration makes Python revisit the current item once more; that revisit
is a no-op (its condition is already rewritten to "Feedback", and a
non-zero `PreConditionFavorScheduleId` would already have broken out of
the loop in the same iteration), so the model steps directly to the next
record.  `data[i - 1]` is the record before the current one without the
just-inserted read item, and index `-1` is the Python negative index,
namely the last record of the current list. -/
def stepItem (x : Item) : Item :=
  if x.MessageCondition = "FavorRankUp" then { x with MessageCondition := "Feedback" } else x

/-- The prefix after the current iteration: the inserted read item (when
the condition was "FavorRankUp") goes right before the current record. -/
def stepRev (revPre : List Tagged) (x : Item) : List Tagged :=
  if x.MessageCondition = "FavorRankUp" then (none, get_item_read x) :: revPre else revPre

/-- The `break` branch of the loop (a record with non-zero
`PreConditionFavorScheduleId`): `last_message = data[i - 1][...]` is
read before the sweep (for the first record, Python index `-1` is the
last record of the current list); the sweep runs over the whole current
list (prefix, possibly-inserted read item, current record, rest); the
bond-story item is then inserted at index `i`, which is before the read
item; finally the condition of the current record becomes "Feedback". -/
def breakResult (st : StudentInfo) (revPre : List Tagged) (t : Option Nat) (x : Item)
    (xs : List Tagged) : List Tagged :=
  let x1 := stepItem x
  let prevG : Int :=
    match revPre with
    | p :: _ => p.2.MessageGroupId
    | [] => (((t, x1) :: xs).getLastD (t, x1)).2.MessageGroupId
  let v := x1.MessageGroupId - 10000
  (sweepNextGroup prevG v revPre.reverse)
    ++ [(none, get_item_bond_story x1 st)]
    ++ (if x.MessageCondition = "FavorRankUp" then
          [(none, sweepItem prevG v (get_item_read x))]
        else [])
    ++ [(t, { sweepItem prevG v x1 with MessageCondition := "Feedback" })]
    ++ sweepNextGroup prevG v xs

def phaseALoop (st : StudentInfo) : List Tagged → List Tagged → List Tagged
  | revPre, [] =>
    match revPre with
    | [] => []
    | lastT :: _ =>
      let g := lastT.2.MessageGroupId
      (sweepNextGroup g (g - 10000) revPre).reverse
        ++ [(none, get_item_bond_story lastT.2 st)]
  | revPre, (t, x) :: xs =>
    if (stepItem x).PreConditionFavorScheduleId ≠ 0 then
      breakResult st revPre t x xs
    else
      phaseALoop st ((t, stepItem x) :: stepRev revPre x) xs

/-- The `while item["MessageId"] in message_id_list: item["MessageId"] += 1`
deduplication: the first integer at or above `x` not in `l`.  The
candidate values strictly increase, so an occurrence of the current
candidate can be erased from the list without changing later membership
tests; fuel equal to the length of the list is therefore sufficient
(when the fuel runs out the list is exhausted too, see `freshIdF_spec`). -/
def freshIdF : Nat → List Int → Int → Int
  | 0, _, x => x
  | fuel + 1, l, x => if x ∈ l then freshIdF fuel (l.erase x) (x + 1) else x

/-- The first integer at or above `x` that is not in `l`. -/
def freshId (l : List Int) (x : Int) : Int :=
  freshIdF l.length l x

/-- The "Adjust MessageId field" loop: `acc` is `message_id_list`. -/
def adjustMessageId : List Int → List Tagged → List Tagged
  | _, [] => []
  | acc, (t, it) :: rest =>
    let mid : Int :=
      if it.MessageCondition = "Answer" then it.MessageGroupId
      else freshId acc (it.MessageGroupId + Int.fmod (it.Id * 7) 10)
    (t, { it with MessageId := mid }) :: adjustMessageId (acc ++ [mid]) rest

/-- The inner `for item2 in data[i + 1:]` scan of the "Adjust NextId
field" loop: both `if` branches assign `item2["MessageId"]` and break. -/
def findNextId (it : Item) : List Tagged → Option Int
  | [] => none
  | (_, it2) :: rest =>
    if (it.MessageGroupId = it2.MessageGroupId ∧ it.MessageCondition ≠ "Answer")
        ∨ it.NextGroupId = it2.MessageGroupId then
      some it2.MessageId
    else
      findNextId it rest

/-- The "Adjust NextId field" double loop. -/
def adjustNextId : List Tagged → List Tagged
  | [] => []
  | (t, it) :: rest =>
    let it1 :=
      match findNextId it rest with
      | some m => { it with NextId := some m }
      | none => it
    (t, it1) :: adjustNextId rest

/-- The loop setting `NextId = -1` on every record whose `MessageId`
equals `data[-1]["MessageId"]`. -/
def setLastNext (l : List Tagged) : List Tagged :=
  match l.getLast? with
  | none => l
  | some lastT =>
    l.map (fun t =>
      if t.2.MessageId = lastT.2.MessageId then (t.1, { t.2 with NextId := some (-1) })
      else t)

/-- The "Add a Type field" conditional chain. -/
def typeOfCond (s : String) : Int :=
  if s = "FavorRankUp" then 4
  else if s = "Answer" then 3
  else if s = "momotalkStory" then 2
  else 0

/-- The "Add a Type field" loop. -/
def addTypeField (l : List Tagged) : List Tagged :=
  l.map (fun t => (t.1, { t.2 with Typ := typeOfCond t.2.MessageCondition }))

/-- The `item["Flag"] = 2` write performed for every record at the
start of the "Add a Flag field" loop. -/
def flagTwo (t : Tagged) : Tagged :=
  (t.1, { t.2 with Flag := 2 })

/-- The working records with the default flag, identified by their
position in `data` (the position stands for the dict reference, so the
later flag writes are visible both in `data` order and grouped order). -/
def flagBase (l : List Tagged) : List (Nat × Tagged) :=
  (l.map flagTwo).enum

/-- The group keys of the dict `group`, in first-occurrence order. -/
def flagKeys (l : List Tagged) : List Int :=
  firstKeys ((l.map flagTwo).map (fun t => t.2.MessageGroupId))

/-- `group = list(group.values())`: the records of each key, in order. -/
def flagGroups (l : List Tagged) : List (List (Nat × Tagged)) :=
  (flagKeys l).map (fun k => (flagBase l).filter (fun e => e.2.2.MessageGroupId = k))

/-- The positions whose record receives `Flag = 1`: heads of the groups
`i` with `group[i][0]["Type"] == 0 and group[i - 1][-1]["Type"] == 0`
(`group[-1]` for `i = 0` is the last group, by Python indexing). -/
def flagIdxOf (l : List Tagged) : List Nat :=
  let groups := flagGroups l
  let n := groups.length
  let condB : Nat → Bool := fun i =>
    match (groups.getD i []).head?,
        (groups.getD (if i = 0 then n - 1 else i - 1) []).getLast? with
    | some h, some p => h.2.2.Typ = 0 ∧ p.2.2.Typ = 0
    | _, _ => false
  (List.range n).filterMap (fun i =>
    if condB i then (groups.getD i []).head?.map (fun e => e.1) else none)

/-- The state of the record at position `e.1` after the flag writes. -/
def flagUpd (l : List Tagged) (e : Nat × Tagged) : Tagged :=
  if e.1 ∈ flagIdxOf l then (e.2.1, { e.2.2 with Flag := 1 }) else e.2

/-- The "Add a Flag field" block: the records in `data` order (first
component) and in the grouped order `sum(group, [])` of the returned
story (second component), both after the flag writes. -/
def addFlagField (l : List Tagged) : List Tagged × List Tagged :=
  ((flagBase l).map (flagUpd l),
    ((flagGroups l).map (fun g => g.map (flagUpd l))).flatten)

/-- `get_result_item(item)`: reading the absent `NextId` key raises
`KeyError`, modelled by `none`; an absent language key yields `""`. -/
def get_result_item (it : Item) : Option ResItem :=
  match it.NextId with
  | none => none
  | some v =>
    some
      { MessageId := it.MessageId
        Flag := it.Flag
        Typ := it.Typ
        NextId := v
        MessageType := it.MessageType
        ImagePath := it.ImagePath
        MessageJP := it.MessageJP.getD ""
        MessageKR := it.MessageKR.getD ""
        MessageTW := it.MessageTW.getD ""
        MessageEN := it.MessageEN.getD "" }

/-- The list comprehension `[get_result_item(item) for item in sum(group, [])]`,
propagating a `KeyError` of any element. -/
def getResults : List Tagged → Option (List ResItem)
  | [] => some []
  | x :: xs =>
    match get_result_item x.2, getResults xs with
    | some y, some ys => some (y :: ys)
    | _, _ => none

/-- The `markdown_list` replacements, applied in source order. -/
def fixMarkdownStr (s : String) : String :=
  pyReplace (pyReplace (pyReplace (pyReplace (pyReplace s "\"" "\\\"") "\n" "\\n") "#" "\\\\#") "*" "\\\\*") "~" "\\\\~"

/-- The `while item[lng] in str_list and item[lng] != "": item[lng] += "\\u200b"`
deduplication (the appended text is the six-character escape sequence).
The candidate strings strictly grow, so erasing the current candidate
keeps later membership tests intact, and fuel equal to the length of
`str_list` is sufficient. -/
def freshStrF : Nat → List String → String → String
  | 0, _, s => s
  | fuel + 1, l, s =>
    if s ∈ l ∧ s ≠ "" then freshStrF fuel (l.erase s) (s ++ "\\u200b") else s

/-- The deduplicated text for the current record given the previous
texts `l`. -/
def freshStr (l : List String) (s : String) : String :=
  freshStrF l.length l s

/-- The four language fields targeted by the markdown/dedup pass. -/
inductive Lang
  | jp
  | kr
  | tw
  | en
deriving DecidableEq

/-- Reads the language field named by `lng`. -/
def langGet : Lang → ResItem → String
  | .jp, c => c.MessageJP
  | .kr, c => c.MessageKR
  | .tw, c => c.MessageTW
  | .en, c => c.MessageEN

/-- Writes the language field named by `lng`. -/
def langSet : Lang → String → ResItem → ResItem
  | .jp, s, c => { c with MessageJP := s }
  | .kr, s, c => { c with MessageKR := s }
  | .tw, s, c => { c with MessageTW := s }
  | .en, s, c => { c with MessageEN := s }

/-- One language pass of the "Fix custom markdown and endless loop"
block: `acc` is `str_list`. -/
def fixLangFold (lng : Lang) : List String → List ResItem → List ResItem
  | _, [] => []
  | acc, c :: rest =>
    let v := freshStr acc (fixMarkdownStr (langGet lng c))
    langSet lng v c :: fixLangFold lng (acc ++ [v]) rest

/-- The whole markdown/dedup block, iterating `language_list` in source
order `["MessageJP", "MessageKR", "MessageTW", "MessageEN"]`. -/
def fixMarkdownAll (l : List ResItem) : List ResItem :=
  let l1 := fixLangFold .jp [] l
  let l2 := fixLangFold .kr [] l1
  let l3 := fixLangFold .tw [] l2
  fixLangFold .en [] l3

/-- The image-path pattern of `re.findall(r"UIs/03_Scenario/04_ScenarioImage/(.*)", ...)`. -/
def scenarioMarker : String := "UIs/03_Scenario/04_ScenarioImage/"

/-- The "Replace image path" block for one record: when the pattern
occurs, the capture is the text after its first occurrence up to the end
of the line. -/
def replaceImagePath (s : String) : String :=
  match splitFirst scenarioMarker.data s.data with
  | some p =>
    "https://bluearcbox.github.io/resources/Stickers/"
      ++ (⟨p.2.takeWhile (fun c => c ≠ '\n')⟩ : String) ++ ".webp"
  | none => s

/-- The full result of one `process_student_story(chat_list, student)`
call: the story info dict inserted at position 0, the transformed
dialogue records in story order, and the final state of the working list
`data` (whose `some i`-tagged records are the caller-visible dicts of
`chat_list`, mutated in place through the shallow list copy). -/
structure ProcResult where
  info : StoryInfo
  chats : List ResItem
  dataAfter : List Tagged
deriving DecidableEq

/-- The working list `data` at the start of the loop: the records of
`chat_list` tagged with their origin index, with the
`data[0]["PreConditionFavorScheduleId"] = 0` write already applied when
`data[0]["MessageCondition"] == "FavorRankUp"` (that write lands on the
shared first record). -/
def dataZero (d0 : Item) (rest : List Item) : List Tagged :=
  (((if d0.MessageCondition = "FavorRankUp" then
      { d0 with PreConditionFavorScheduleId := 0 }
    else d0) :: rest).enum).map (fun e => (some e.1, e.2))

/-- The record-transforming phases of `process_student_story` in source
order: system/bond-story insertion, MessageId adjustment, NextId
adjustment, the `NextId = -1` write for the last message id, the Type
field, and the Flag field with grouping.  The result is the final state
of `data` (first component) and the grouped record order of the story
(second component). -/
def pipeline (chat_list : List Item) (student : StudentInfo) : List Tagged × List Tagged :=
  match chat_list with
  | [] => ([], [])
  | d0 :: rest =>
    addFlagField (addTypeField (setLastNext (adjustNextId
      (adjustMessageId [] (phaseALoop student [] (dataZero d0 rest))))))

/-- The story info dict inserted at position 0 of the result. -/
def storyInfoOf (student : StudentInfo) : StoryInfo :=
  { CharacterId := student.id
    MessageJP := student.jp.getD ""
    MessageKR := student.kr.getD ""
    MessageTW := student.tw.getD ""
    MessageEN := student.en.getD "" }

/-- The final record list: markdown fixes and text deduplication,
then the image path replacement. -/
def finalChats (chats0 : List ResItem) : List ResItem :=
  (fixMarkdownAll chats0).map (fun c => { c with ImagePath := replaceImagePath c.ImagePath })

/-- `process_student_story` with the mutated input records kept
observable.  `data[0]` is read unconditionally, so the empty list input
fails (`IndexError`), modelled by `none`. -/
def processFull (chat_list : List Item) (student : StudentInfo) : Option ProcResult :=
  match chat_list with
  | [] => none
  | d0 :: rest =>
    match getResults (pipeline (d0 :: rest) student).2 with
    | none => none
    | some chats0 =>
      some
        { info := storyInfoOf student
          chats := finalChats chats0
          dataAfter := (pipeline (d0 :: rest) student).1 }

/-- The value returned by `process_student_story`: the story info dict
followed by the dialogue records. -/
def process_student_story (chat_list : List Item) (student : StudentInfo) :
    Option (StoryInfo × List ResItem) :=
  (processFull chat_list student).map (fun r => (r.info, r.chats))

/-- The tags of a working list: the origin indices of the records that
are shared with the input `chat_list`, in list order. -/
def tagsOf (l : List Tagged) : List Nat :=
  l.filterMap (fun t => t.1)


end BondStory

namespace Comics

/-! ## scripts/comics.py

The `retry(times)` decorator.  A wrapped call is a sequence of attempts
whose outcomes depend only on ambient state, modelled by indexing the
attempts: `f i` is the outcome of the `i`-th invocation of the wrapped
function (`Except.ok` for a normal return, `Except.error` for a raised
exception).  `retryRun` returns the value produced by the wrapper
(`none` is Python `None`, returned implicitly when the loop exhausts
`times` attempts) together with the number of invocations performed. -/

/-- The `while i < times` loop of `inner_wrapper`: the first argument is
the number of remaining attempts (`times - i`), the second the current
attempt counter `i`. -/
def retryLoop {ε α : Type} (f : Nat → Except ε α) : Nat → Nat → Option α × Nat
  | 0, _ => (none, 0)
  | remaining + 1, i =>
    match f i with
    | .ok a => (some a, 1)
    | .error _ =>
      ((retryLoop f remaining (i + 1)).1, (retryLoop f remaining (i + 1)).2 + 1)

/-- `retry(times)` applied to a function whose attempt outcomes are `f`:
the wrapper result (`none` is the implicit Python `None`) and the number
of invocations performed. -/
def retryRun {ε α : Type} (times : Nat) (f : Nat → Except ε α) : Option α × Nat :=
  retryLoop f times 0

end Comics

namespace BatchImage

/-! ## scripts/batch_image_download.py

The script computes the fandom avatar URLs, defines `async_download` and
`main`, obtains an event loop with `asyncio.get_event_loop()` and calls
`loop.create_task(main())` — and then ends.  No `run_until_complete` or
`run_forever` call ever runs the loop, so the scheduled coroutine never
executes.  The event loop is modelled by the list of file writes each
scheduled task would perform plus a flag recording whether the loop was
ever run; the writes that actually happen are those of tasks on a loop
that ran. -/

/-- `targets`: the avatars of every non-empty avatar list that start
with "/fandom", flattened. -/
def fandomTargets (avatarLists : List (List String)) : List String :=
  ((avatarLists.filter (fun l => l ≠ [])).map
    (fun l => l.filter (fun a => pyStartsWith a "/fandom"))).flatten

/-- `urls`: the targets with "/fandom" replaced by the wiki image host. -/
def downloadUrls (avatarLists : List (List String)) : List String :=
  (fandomTargets avatarLists).map
    (fun t => pyReplace t "/fandom" "https://static.wikia.nocookie.net/blue-archive/images")

/-- The file written by `async_download(url)`:
`Avatars/Fandom/` plus `url.split("/")[-1]`. -/
def asyncDownloadFile (url : String) : String :=
  "Avatars/Fandom/" ++ lastSegment url "/"

/-- The file writes the `main()` coroutine would perform if executed. -/
def mainTaskFiles (avatarLists : List (List String)) : List String :=
  (downloadUrls avatarLists).map asyncDownloadFile

/-- An asyncio event loop: the scheduled tasks (each given by the file
writes it would perform) and whether the loop was ever run. -/
structure EventLoop where
  scheduled : List (List String)
  ran : Bool
deriving DecidableEq

/-- The writes that actually reach the disk: only a loop that ran
executes its tasks. -/
def EventLoop.executedWrites (l : EventLoop) : List String :=
  if l.ran then l.scheduled.flatten else []

/-- The state of the event loop when the script ends:
`loop.create_task(main())` scheduled the coroutine, and no call runs the
loop before the script exits. -/
def scriptLoop (avatarLists : List (List String)) : EventLoop :=
  { scheduled := [mainTaskFiles avatarLists], ran := false }

/-- The files the script writes before it ends. -/
def scriptWrites (avatarLists : List (List String)) : List String :=
  (scriptLoop avatarLists).executedWrites

end BatchImage

namespace Stickers

/-! ## scripts/stickers.py

The `build_table` methods of `Kivo` and `Gamekee`.  Both iterate the
SchaleDB student dict (`{id: name}`, modelled as an association list in
insertion order), compute the site-side keys whose student matchKeys the
name, and either record the single match in the mapping or append
`f"{key} - {name}"` to the global `errors` list. -/

/-- The common loop shape of the `build_table` methods: `matchKeys n` is
the list of site-side keys matching name `n`; the result is the mapping
and the portion this call appends to the global `errors` list, both in
iteration order. -/
def buildTableLoop {κ : Type} (matchKeys : String → List κ) :
    List (String × String) → List (String × κ) × List String
  | [] => ([], [])
  | (key, name) :: rest =>
    let res := buildTableLoop matchKeys rest
    match matchKeys name with
    | [m] => ((key, m) :: res.1, res.2)
    | _ => (res.1, (key ++ " - " ++ name) :: res.2)

/-- `Kivo.build_table`: `search_result = [k for k, v in
kivo_student_list.items() if v == name]`. -/
def kivoMatches (kivoList : List (Int × String)) (name : String) : List Int :=
  (kivoList.filter (fun p => p.2 = name)).map (fun p => p.1)

/-- `Kivo.build_table(kivo_student_list, schale_student_list)`. -/
def kivo_build_table (kivoList : List (Int × String))
    (schaleList : List (String × String)) : List (String × Int) × List String :=
  buildTableLoop (kivoMatches kivoList) schaleList

/-- One entry of the GameKee student list as used by
`Gamekee.build_table`. -/
structure GamekeeStudent where
  content_id : Int
  name : String
  name_alias : String
deriving DecidableEq

/-- Python dict insertion: an existing key keeps its position and gets
the new value, a new key is appended. -/
def dictInsert {κ ν : Type} [DecidableEq κ] (d : List (κ × ν)) (k : κ) (v : ν) :
    List (κ × ν) :=
  if d.any (fun p => p.1 = k) then
    d.map (fun p => if p.1 = k then (k, v) else p)
  else
    d ++ [(k, v)]

/-- A Python dict built from a sequence of key-value pairs (as a dict
comprehension does: later duplicates overwrite, first position wins). -/
def dictOfList {κ ν : Type} [DecidableEq κ] (l : List (κ × ν)) : List (κ × ν) :=
  l.foldl (fun d p => dictInsert d p.1 p.2) []

/-- `student_alias_list = {student["content_id"]: [student["name"]] +
student["name_alias"].split(",") for student in gamkee_list}`. -/
def gamekeeAliasTable (gl : List GamekeeStudent) : List (Int × List String) :=
  dictOfList (gl.map (fun s =>
    (s.content_id, s.name :: (splitL [','] s.name_alias.data).map (fun c => (⟨c⟩ : String)))))

/-- `Gamekee._generate_name_variants(name)`. -/
def nameVariants (name : String) : List String :=
  [ name
  , pyReplace (pyReplace name "（" "(") "）" ")"
  , pyReplace (pyReplace name "（" " (") "）" ")"
  , pyReplace name "＊" "*" ]

/-- `Gamekee.build_table`: the site keys whose alias list contains any
name variant. -/
def gamekeeMatches (gl : List GamekeeStudent) (name : String) : List Int :=
  ((gamekeeAliasTable gl).filter
    (fun p => (nameVariants name).any (fun v => p.2.contains v))).map (fun p => p.1)

/-- `Gamekee.build_table(gamkee_list, schale_list)`. -/
def gamekee_build_table (gl : List GamekeeStudent)
    (schaleList : List (String × String)) : List (String × Int) × List String :=
  buildTableLoop (gamekeeMatches gl) schaleList

end Stickers


/-! ## Lemmas about the string primitives -/

theorem splitFirst_shorter (pat : List Char) :
    ∀ l a b, splitFirst pat l = some (a, b) → b.length < l.length := by
  intro l
  induction l with
  | nil => intro a b h; simp [splitFirst] at h
  | cons c cs ih =>
    intro a b h
    rw [splitFirst] at h
    by_cases hp : pat ≠ [] ∧ pat.isPrefixOf (c :: cs)
    · rw [if_pos hp] at h
      cases h
      cases pat with
      | nil => exact absurd rfl hp.1
      | cons p ps => simp only [List.length_drop, List.length_cons]; omega
    · rw [if_neg hp] at h
      cases hsf : splitFirst pat cs with
      | none => rw [hsf] at h; simp at h
      | some p =>
        rw [hsf] at h
        simp only [Option.map_some'] at h
        cases h
        have := ih p.1 p.2 (by rw [hsf])
        simp only [List.length_cons]
        omega


/-! ## Generic list lemmas -/

theorem forall₂_mem_right {α β : Type} {R : α → β → Prop} {l₁ : List α} {l₂ : List β}
    (h : List.Forall₂ R l₁ l₂) : ∀ b ∈ l₂, ∃ a ∈ l₁, R a b := by
  induction h with
  | nil => intro b hb; cases hb
  | @cons a b t₁ t₂ hr _ ih =>
    intro c hc
    rcases List.mem_cons.mp hc with rfl | hc
    · exact ⟨a, List.mem_cons_self a t₁, hr⟩
    · rcases ih c hc with ⟨a', ha', hr'⟩
      exact ⟨a', List.mem_cons_of_mem _ ha', hr'⟩

theorem forall₂_mem_left {α β : Type} {R : α → β → Prop} {l₁ : List α} {l₂ : List β}
    (h : List.Forall₂ R l₁ l₂) : ∀ a ∈ l₁, ∃ b ∈ l₂, R a b := by
  induction h with
  | nil => intro a ha; cases ha
  | @cons a b t₁ t₂ hr _ ih =>
    intro c hc
    rcases List.mem_cons.mp hc with rfl | hc
    · exact ⟨b, List.mem_cons_self b t₂, hr⟩
    · rcases ih c hc with ⟨b', hb', hr'⟩
      exact ⟨b', List.mem_cons_of_mem _ hb', hr'⟩

theorem forall₂_map_eq {α β γ : Type} {R : α → β → Prop} {f : α → γ} {g : β → γ}
    {l₁ : List α} {l₂ : List β} (h : List.Forall₂ R l₁ l₂)
    (hfg : ∀ a b, R a b → f a = g b) : l₁.map f = l₂.map g := by
  induction h with
  | nil => rfl
  | cons hr _ ih => simpa [hfg _ _ hr] using ih

theorem forall₂_of_map {α β : Type} {R : α → β → Prop} {f : α → β}
    (l : List α) (hf : ∀ a, R a (f a)) : List.Forall₂ R l (l.map f) := by
  induction l with
  | nil => exact List.Forall₂.nil
  | cons x xs ih => exact List.Forall₂.cons (hf x) ih

theorem pairwise_of_forall₂ {α β : Type} {S : α → β → Prop}
    {R : α → α → Prop} {R' : β → β → Prop} {l : List α} {m : List β}
    (h : List.Forall₂ S l m) (hp : List.Pairwise R l)
    (himp : ∀ a b a' b', S a a' → S b b' → R a b → R' a' b') :
    List.Pairwise R' m := by
  induction h with
  | nil => exact List.Pairwise.nil
  | @cons a b t₁ t₂ hr ht ih =>
    rcases List.pairwise_cons.mp hp with ⟨hhead, htail⟩
    refine List.Pairwise.cons ?_ (ih htail)
    intro b' hb'
    rcases forall₂_mem_right ht b' hb' with ⟨a', ha', hr'⟩
    exact himp a a' b b' hr hr' (hhead a' ha')

theorem mem_of_map_eq {α β γ : Type} {f : α → γ} {g : β → γ} {l₁ : List α} {l₂ : List β}
    (h : l₁.map f = l₂.map g) : ∀ a ∈ l₁, ∃ b ∈ l₂, g b = f a := by
  intro a ha
  have : f a ∈ l₂.map g := by
    rw [← h]
    exact List.mem_map_of_mem f ha
  exact List.mem_map.mp this

theorem firstKeys_mem : ∀ (l : List Int) (a : Int), a ∈ firstKeys l ↔ a ∈ l := by
  intro l
  induction l with
  | nil => intro a; simp [firstKeys]
  | cons x xs ih =>
    intro a
    simp only [firstKeys, List.mem_cons, List.mem_filter, ih, decide_eq_true_eq]
    by_cases hax : a = x
    · subst hax; simp
    · simp [hax]

theorem firstKeys_nodup : ∀ l : List Int, (firstKeys l).Nodup := by
  intro l
  induction l with
  | nil => exact List.nodup_nil
  | cons x xs ih =>
    refine List.nodup_cons.mpr ⟨?_, List.Nodup.filter _ ih⟩
    intro hx
    have := (List.mem_filter.mp hx).2
    simp at this

theorem count_filter_key_ne {α : Type} [DecidableEq α] (key : α → Int) (l : List α)
    (x : α) (k : Int) (hne : key x ≠ k) :
    List.count x (l.filter (fun a => key a = k)) = 0 := by
  refine List.count_eq_zero.mpr ?_
  intro hx
  exact hne (by simpa using (List.mem_filter.mp hx).2)

theorem sum_counts_not_mem {α : Type} [DecidableEq α] (key : α → Int) (l : List α)
    (x : α) : ∀ ks : List Int, key x ∉ ks →
    ((ks.map (fun k => l.filter (fun a => key a = k))).map (List.count x)).sum = 0 := by
  intro ks
  induction ks with
  | nil => intro _; rfl
  | cons k t ih =>
    intro hk
    have h1 : key x ≠ k := fun h => hk (by simp [h])
    have h2 : key x ∉ t := fun h => hk (List.mem_cons_of_mem _ h)
    simp only [List.map_cons, List.sum_cons, ih h2, Nat.add_zero]
    exact count_filter_key_ne key l x k h1

theorem sum_counts_mem {α : Type} [DecidableEq α] (key : α → Int) (l : List α)
    (x : α) : ∀ ks : List Int, ks.Nodup → key x ∈ ks →
    ((ks.map (fun k => l.filter (fun a => key a = k))).map (List.count x)).sum
      = List.count x l := by
  intro ks
  induction ks with
  | nil => intro _ hk; cases hk
  | cons k t ih =>
    intro hnd hk
    rcases List.nodup_cons.mp hnd with ⟨hknt, hndt⟩
    simp only [List.map_cons, List.sum_cons]
    by_cases hxk : key x = k
    · have hcount : List.count x (l.filter (fun a => key a = k)) = List.count x l :=
        List.count_filter (by simpa using hxk)
      have hrest : key x ∉ t := fun h => hknt (hxk ▸ h)
      rw [hcount, sum_counts_not_mem key l x t hrest]
      omega
    · have hmem : key x ∈ t := by
        rcases List.mem_cons.mp hk with h | h
        · exact absurd h hxk
        · exact h
      rw [count_filter_key_ne key l x k hxk, ih hndt hmem, Nat.zero_add]

theorem flatten_filter_perm {α : Type} [DecidableEq α] (key : α → Int) (l : List α)
    (ks : List Int) (hnd : ks.Nodup) (hc : ∀ a ∈ l, key a ∈ ks) :
    ((ks.map (fun k => l.filter (fun a => key a = k))).flatten).Perm l := by
  refine List.perm_iff_count.mpr ?_
  intro x
  rw [List.count_flatten, List.map_map]
  by_cases hx : x ∈ l
  · simpa using sum_counts_mem key l x ks hnd (hc x hx)
  · have hl : List.count x l = 0 := List.count_eq_zero.mpr hx
    rw [hl]
    by_cases hk : key x ∈ ks
    · simpa [hl] using sum_counts_mem key l x ks hnd hk
    · simpa using sum_counts_not_mem key l x ks hk


namespace BondStory

/-! ## Lemmas about the phases of process_student_story -/

theorem freshIdF_spec : ∀ (fuel : Nat) (l : List Int) (x : Int), l.length ≤ fuel →
    freshIdF fuel l x ∉ l ∧ x ≤ freshIdF fuel l x := by
  intro fuel
  induction fuel with
  | zero =>
    intro l x hl
    have hnil : l = [] := List.length_eq_zero.mp (Nat.le_zero.mp hl)
    subst hnil
    exact ⟨by simp [freshIdF], le_refl x⟩
  | succ n ih =>
    intro l x hl
    show (if x ∈ l then freshIdF n (l.erase x) (x + 1) else x) ∉ l ∧
      x ≤ (if x ∈ l then freshIdF n (l.erase x) (x + 1) else x)
    by_cases hx : x ∈ l
    · rw [if_pos hx]
      have hlen : (l.erase x).length ≤ n := by
        rw [List.length_erase_of_mem hx]
        have := List.length_pos_of_mem hx
        omega
      rcases ih (l.erase x) (x + 1) hlen with ⟨hmem, hle⟩
      have hne : freshIdF n (l.erase x) (x + 1) ≠ x := by intro he; omega
      refine ⟨fun hin => hmem ((List.mem_erase_of_ne hne).mpr hin), by omega⟩
    · rw [if_neg hx]
      exact ⟨hx, le_refl x⟩

theorem freshId_spec (l : List Int) (x : Int) : freshId l x ∉ l ∧ x ≤ freshId l x :=
  freshIdF_spec l.length l x (le_refl _)

theorem freshStrF_spec : ∀ (fuel : Nat) (l : List String) (s : String), l.length ≤ fuel →
    (freshStrF fuel l s ∉ l ∨ freshStrF fuel l s = "") ∧
      s.length ≤ (freshStrF fuel l s).length := by
  intro fuel
  induction fuel with
  | zero =>
    intro l s hl
    have hnil : l = [] := List.length_eq_zero.mp (Nat.le_zero.mp hl)
    subst hnil
    exact ⟨Or.inl (by simp [freshStrF]), le_refl _⟩
  | succ n ih =>
    intro l s hl
    show ((if s ∈ l ∧ s ≠ "" then freshStrF n (l.erase s) (s ++ "\\u200b") else s) ∉ l ∨
        (if s ∈ l ∧ s ≠ "" then freshStrF n (l.erase s) (s ++ "\\u200b") else s) = "") ∧
      s.length ≤ (if s ∈ l ∧ s ≠ "" then freshStrF n (l.erase s) (s ++ "\\u200b") else s).length
    by_cases hx : s ∈ l ∧ s ≠ ""
    · rw [if_pos hx]
      have hlen : (l.erase s).length ≤ n := by
        rw [List.length_erase_of_mem hx.1]
        have := List.length_pos_of_mem hx.1
        omega
      rcases ih (l.erase s) (s ++ "\\u200b") hlen with ⟨hmem, hle⟩
      have happ : (s ++ "\\u200b").length = s.length + 6 := by
        rw [String.length_append]; rfl
      have hlonger : s.length < (freshStrF n (l.erase s) (s ++ "\\u200b")).length := by
        omega
      have hne : freshStrF n (l.erase s) (s ++ "\\u200b") ≠ s := by
        intro he
        rw [he] at hlonger
        omega
      constructor
      · rcases hmem with hmem | hemp
        · exact Or.inl (fun hin => hmem ((List.mem_erase_of_ne hne).mpr hin))
        · exact Or.inr hemp
      · omega
    · rw [if_neg hx]
      refine ⟨?_, le_refl _⟩
      by_cases hse : s = ""
      · exact Or.inr hse
      · exact Or.inl (fun hin => hx ⟨hin, hse⟩)

theorem freshStr_spec (l : List String) (s : String) :
    (freshStr l s ∉ l ∨ freshStr l s = "") ∧ s.length ≤ (freshStr l s).length :=
  freshStrF_spec l.length l s (le_refl _)

theorem sweepItem_NextId (g v : Int) (it : Item) :
    (sweepItem g v it).NextId = it.NextId := by
  unfold sweepItem
  split <;> rfl

theorem sweepNextGroup_filterMap_fst (g v : Int) (l : List Tagged) :
    (sweepNextGroup g v l).filterMap (fun t => t.1) = l.filterMap (fun t => t.1) := by
  unfold sweepNextGroup
  rw [List.filterMap_map]
  rfl

theorem sweepNextGroup_tags (g v : Int) (l : List Tagged) :
    tagsOf (sweepNextGroup g v l) = tagsOf l :=
  sweepNextGroup_filterMap_fst g v l

theorem sweepNextGroup_mem (g v : Int) (l : List Tagged) :
    ∀ b ∈ sweepNextGroup g v l, ∃ a ∈ l, b = (a.1, sweepItem g v a.2) := by
  intro b hb
  rcases List.mem_map.mp hb with ⟨a, ha, he⟩
  exact ⟨a, ha, he.symm⟩

theorem stepItem_NextId (x : Item) : (stepItem x).NextId = x.NextId := by
  unfold stepItem
  split <;> rfl

theorem stepItem_pre (x : Item) :
    (stepItem x).PreConditionFavorScheduleId = x.PreConditionFavorScheduleId := by
  unfold stepItem
  split <;> rfl

theorem get_item_read_NextId (x : Item) : (get_item_read x).NextId = none := rfl

theorem get_item_bond_story_NextId (x : Item) (st : StudentInfo) :
    (get_item_bond_story x st).NextId = none := rfl

theorem breakResult_tags (st : StudentInfo) (revPre : List Tagged) (t : Option Nat)
    (x : Item) (xs : List Tagged) :
    tagsOf (breakResult st revPre t x xs) = (tagsOf revPre).reverse ++ tagsOf ((t, x) :: xs) := by
  unfold breakResult tagsOf
  cases revPre with
  | nil =>
    cases t <;> by_cases hc : x.MessageCondition = "FavorRankUp" <;>
      simp [hc, List.filterMap_append, List.filterMap_cons, List.filterMap_reverse,
        sweepNextGroup_filterMap_fst]
  | cons p tail =>
    obtain ⟨tp, ip⟩ := p
    cases tp <;> cases t <;> by_cases hc : x.MessageCondition = "FavorRankUp" <;>
      simp [hc, List.filterMap_append, List.filterMap_cons, List.filterMap_reverse,
        sweepNextGroup_filterMap_fst]

theorem phaseALoop_tags (st : StudentInfo) : ∀ (suf revPre : List Tagged),
    tagsOf (phaseALoop st revPre suf) = (tagsOf revPre).reverse ++ tagsOf suf := by
  intro suf
  induction suf with
  | nil =>
    intro revPre
    cases revPre with
    | nil => simp [phaseALoop, tagsOf]
    | cons lastT rest =>
      show tagsOf ((sweepNextGroup _ _ (lastT :: rest)).reverse ++ [(none, _)]) = _
      unfold tagsOf
      rw [List.filterMap_append, List.filterMap_reverse, sweepNextGroup_filterMap_fst]
      simp
  | cons hd tl ih =>
    intro revPre
    obtain ⟨t, x⟩ := hd
    show tagsOf (phaseALoop st revPre ((t, x) :: tl)) = _
    rw [phaseALoop]
    split
    · exact breakResult_tags st revPre t x tl
    · rw [ih ((t, stepItem x) :: stepRev revPre x)]
      unfold stepRev
      cases t with
      | none =>
        split
        · simp [tagsOf, List.filterMap_cons]
        · simp [tagsOf, List.filterMap_cons]
      | some i =>
        split
        · simp [tagsOf, List.filterMap_cons]
        · simp [tagsOf, List.filterMap_cons]

theorem breakResult_ne_nil (st : StudentInfo) (revPre : List Tagged) (t : Option Nat)
    (x : Item) (xs : List Tagged) : breakResult st revPre t x xs ≠ [] := by
  unfold breakResult
  intro h
  simp [List.append_eq_nil] at h

theorem phaseALoop_ne_nil (st : StudentInfo) : ∀ (suf revPre : List Tagged),
    revPre ≠ [] ∨ suf ≠ [] → phaseALoop st revPre suf ≠ [] := by
  intro suf
  induction suf with
  | nil =>
    intro revPre h
    cases revPre with
    | nil => rcases h with h | h <;> simp at h
    | cons lastT rest =>
      show (sweepNextGroup _ _ _).reverse ++ [(none, _)] ≠ []
      simp
  | cons hd tl ih =>
    intro revPre _
    obtain ⟨t, x⟩ := hd
    rw [phaseALoop]
    split
    · exact breakResult_ne_nil st revPre t x tl
    · exact ih _ (Or.inl (by simp))

theorem breakResult_next (N : Option Int → Prop) (hN : N none)
    (st : StudentInfo) (revPre : List Tagged) (t : Option Nat) (x : Item) (xs : List Tagged)
    (hpre : ∀ a ∈ revPre, N a.2.NextId) (hx : N x.NextId)
    (hxs : ∀ a ∈ xs, N a.2.NextId) :
    ∀ b ∈ breakResult st revPre t x xs, N b.2.NextId := by
  intro b hb
  unfold breakResult at hb
  simp only [List.mem_append, List.mem_cons, List.not_mem_nil, or_false, List.mem_singleton] at hb
  rcases hb with ((((hb | hb) | hb) | hb) | hb)
  · rcases sweepNextGroup_mem _ _ _ b hb with ⟨a, ha, rfl⟩
    rw [sweepItem_NextId]
    exact hpre a (List.mem_reverse.mp ha)
  · rw [hb]
    exact hN
  · by_cases hc : x.MessageCondition = "FavorRankUp"
    · rw [if_pos hc] at hb
      simp only [List.mem_singleton] at hb
      rw [hb]
      show N (sweepItem _ _ (get_item_read x)).NextId
      rw [sweepItem_NextId, get_item_read_NextId]
      exact hN
    · rw [if_neg hc] at hb
      simp at hb
  · rw [hb]
    show N (sweepItem _ _ (stepItem x)).NextId
    rw [sweepItem_NextId, stepItem_NextId]
    exact hx
  · rcases sweepNextGroup_mem _ _ _ b hb with ⟨a, ha, rfl⟩
    rw [sweepItem_NextId]
    exact hxs a ha

theorem phaseALoop_next (st : StudentInfo) (N : Option Int → Prop) (hN : N none) :
    ∀ (suf revPre : List Tagged),
      (∀ a ∈ revPre, N a.2.NextId) → (∀ a ∈ suf, N a.2.NextId) →
      ∀ b ∈ phaseALoop st revPre suf, N b.2.NextId := by
  intro suf
  induction suf with
  | nil =>
    intro revPre hpre _ b hb
    cases revPre with
    | nil => simp [phaseALoop] at hb
    | cons lastT rest =>
      rcases List.mem_append.mp hb with hb | hb
      · rcases sweepNextGroup_mem _ _ _ b (List.mem_reverse.mp hb) with ⟨a, ha, rfl⟩
        rw [sweepItem_NextId]
        exact hpre a ha
      · simp only [List.mem_singleton] at hb
        rw [hb]
        exact hN
  | cons hd tl ih =>
    intro revPre hpre hsuf b hb
    obtain ⟨t, x⟩ := hd
    rw [phaseALoop] at hb
    split at hb
    · exact breakResult_next N hN st revPre t x tl hpre
        (hsuf (t, x) (List.mem_cons_self _ _)) (fun a ha => hsuf a (List.mem_cons_of_mem _ ha))
        b hb
    · refine ih ((t, stepItem x) :: stepRev revPre x) ?_
        (fun a ha => hsuf a (List.mem_cons_of_mem _ ha)) b hb
      intro a ha
      rcases List.mem_cons.mp ha with rfl | ha
      · rw [show ((t, stepItem x) : Tagged).2.NextId = (stepItem x).NextId from rfl,
          stepItem_NextId]
        exact hsuf (t, x) (List.mem_cons_self _ _)
      · unfold stepRev at ha
        by_cases hc : x.MessageCondition = "FavorRankUp"
        · rw [if_pos hc] at ha
          rcases List.mem_cons.mp ha with rfl | ha
          · rw [show ((none, get_item_read x) : Tagged).2.NextId = (get_item_read x).NextId
              from rfl, get_item_read_NextId]
            exact hN
          · exact hpre a ha
        · rw [if_neg hc] at ha
          exact hpre a ha

theorem adjustMessageId_forall₂ : ∀ (acc : List Int) (l : List Tagged),
    List.Forall₂ (fun a b => b.1 = a.1 ∧ b.2 = { a.2 with MessageId := b.2.MessageId }) l
      (adjustMessageId acc l) := by
  intro acc l
  induction l generalizing acc with
  | nil => exact List.Forall₂.nil
  | cons hd tl ih =>
    obtain ⟨t, it⟩ := hd
    rw [adjustMessageId]
    exact List.Forall₂.cons ⟨rfl, rfl⟩ (ih _)

theorem adjustMessageId_fresh : ∀ (acc : List Int) (l : List Tagged),
    (∀ b ∈ adjustMessageId acc l, b.2.MessageCondition ≠ "Answer" → b.2.MessageId ∉ acc) ∧
    List.Pairwise
      (fun a b => b.2.MessageCondition ≠ "Answer" → a.2.MessageId ≠ b.2.MessageId)
      (adjustMessageId acc l) := by
  intro acc l
  induction l generalizing acc with
  | nil => exact ⟨fun b hb => absurd hb (List.not_mem_nil b), List.Pairwise.nil⟩
  | cons hd tl ih =>
    obtain ⟨t, it⟩ := hd
    rw [adjustMessageId]
    set mid : Int :=
      (if it.MessageCondition = "Answer" then it.MessageGroupId
       else freshId acc (it.MessageGroupId + Int.fmod (it.Id * 7) 10)) with hmid
    rcases ih (acc ++ [mid]) with ⟨ihfresh, ihpair⟩
    constructor
    · intro b hb hbans
      rcases List.mem_cons.mp hb with rfl | hb
      · have hcond : it.MessageCondition ≠ "Answer" := hbans
        have : mid = freshId acc (it.MessageGroupId + Int.fmod (it.Id * 7) 10) := by
          rw [hmid, if_neg hcond]
        show mid ∉ acc
        rw [this]
        exact (freshId_spec _ _).1
      · intro hin
        exact ihfresh b hb hbans (List.mem_append.mpr (Or.inl hin))
    · refine List.Pairwise.cons ?_ ihpair
      intro b hb hbans
      have : b.2.MessageId ∉ acc ++ [mid] := ihfresh b hb hbans
      intro he
      exact this (List.mem_append.mpr (Or.inr (by
        show b.2.MessageId ∈ [mid]
        rw [← he]
        exact List.mem_singleton.mpr rfl)))

theorem findNextId_mem (it : Item) : ∀ (l : List Tagged) (m : Int),
    findNextId it l = some m → ∃ u ∈ l, m = u.2.MessageId := by
  intro l
  induction l with
  | nil => intro m h; simp [findNextId] at h
  | cons hd tl ih =>
    intro m h
    obtain ⟨t2, it2⟩ := hd
    rw [findNextId] at h
    split at h
    · exact ⟨(t2, it2), List.mem_cons_self _ _, (Option.some.inj h).symm⟩
    · rcases ih m h with ⟨u, hu, he⟩
      exact ⟨u, List.mem_cons_of_mem _ hu, he⟩

theorem adjustNextId_forall₂ : ∀ l : List Tagged,
    List.Forall₂ (fun a b => b.1 = a.1 ∧
      (b.2 = a.2 ∨ ∃ m, (∃ u ∈ l, m = u.2.MessageId) ∧ b.2 = { a.2 with NextId := some m }))
      l (adjustNextId l) := by
  intro l
  induction l with
  | nil => exact List.Forall₂.nil
  | cons hd tl ih =>
    obtain ⟨t, it⟩ := hd
    rw [adjustNextId]
    refine List.Forall₂.cons ⟨rfl, ?_⟩ ?_
    · cases hf : findNextId it tl with
      | none =>
        simp only [hf]
        exact Or.inl trivial
      | some m =>
        simp only [hf]
        refine Or.inr ⟨m, ?_, rfl⟩
        rcases findNextId_mem it tl m hf with ⟨u, hu, he⟩
        exact ⟨u, List.mem_cons_of_mem _ hu, he⟩
    · refine ih.imp ?_
      intro a b hab
      refine ⟨hab.1, ?_⟩
      rcases hab.2 with hb | ⟨m, ⟨u, hu, he⟩, hb⟩
      · exact Or.inl hb
      · exact Or.inr ⟨m, ⟨u, List.mem_cons_of_mem _ hu, he⟩, hb⟩

theorem setLastNext_forall₂ (l : List Tagged) :
    List.Forall₂ (fun a b => b = a ∨ (b.1 = a.1 ∧ b.2 = { a.2 with NextId := some (-1) })) l
      (setLastNext l) := by
  unfold setLastNext
  cases hl : l.getLast? with
  | none =>
    refine List.forall₂_same.mpr ?_
    intro x _
    exact Or.inl rfl
  | some lastT =>
    refine forall₂_of_map l ?_
    intro a
    by_cases hc : a.2.MessageId = lastT.2.MessageId
    · rw [if_pos hc]
      exact Or.inr ⟨rfl, rfl⟩
    · rw [if_neg hc]
      exact Or.inl rfl

theorem setLastNext_last (l : List Tagged) (h : l ≠ []) :
    ∃ b ∈ setLastNext l, b.2.NextId = some (-1) := by
  have hlast := List.getLast?_eq_getLast l h
  unfold setLastNext
  rw [hlast]
  exact ⟨((l.getLast h).1, { (l.getLast h).2 with NextId := some (-1) }),
    List.mem_map.mpr ⟨l.getLast h, List.getLast_mem h, by simp⟩, rfl⟩

theorem forall₂_comp {α β γ : Type} {R : α → β → Prop} {S : β → γ → Prop}
    {l : List α} {m : List β} {n : List γ}
    (h1 : List.Forall₂ R l m) (h2 : List.Forall₂ S m n) :
    List.Forall₂ (fun a c => ∃ b, R a b ∧ S b c) l n := by
  induction h1 generalizing n with
  | nil =>
    cases h2
    exact List.Forall₂.nil
  | @cons a b t₁ t₂ hr _ ih =>
    cases h2 with
    | cons hs ht => exact List.Forall₂.cons ⟨b, hr, hs⟩ (ih ht)

theorem forall₂_enumFrom_map {α β : Type} {S : α → β → Prop} (u : Nat × α → β)
    (h : ∀ i a, S a (u (i, a))) :
    ∀ (l : List α) (n : Nat), List.Forall₂ S l ((l.enumFrom n).map u) := by
  intro l
  induction l with
  | nil => intro n; exact List.Forall₂.nil
  | cons x xs ih => intro n; exact List.Forall₂.cons (h n x) (ih (n + 1))

theorem forall₂_enum_map {α β : Type} {S : α → β → Prop} (u : Nat × α → β)
    (h : ∀ i a, S a (u (i, a))) (l : List α) :
    List.Forall₂ S l (l.enum.map u) :=
  forall₂_enumFrom_map u h l 0

theorem addFlagField_fst_forall₂ (l : List Tagged) :
    List.Forall₂ (fun a b => b.1 = a.1 ∧ b.2 = { a.2 with Flag := b.2.Flag }) l
      (addFlagField l).1 := by
  have h1 : List.Forall₂ (fun a y => y = flagTwo a) l (l.map flagTwo) :=
    forall₂_of_map l (fun _ => rfl)
  have h2 : List.Forall₂ (fun y b => b.1 = y.1 ∧ b.2 = { y.2 with Flag := b.2.Flag })
      (l.map flagTwo) (addFlagField l).1 := by
    show List.Forall₂ _ (l.map flagTwo) (((l.map flagTwo).enum).map (flagUpd l))
    refine forall₂_enum_map (flagUpd l) ?_ (l.map flagTwo)
    intro i a
    unfold flagUpd
    by_cases hi : i ∈ flagIdxOf l
    · rw [if_pos hi]
      exact ⟨rfl, rfl⟩
    · rw [if_neg hi]
      exact ⟨rfl, rfl⟩
  refine (forall₂_comp h1 h2).imp ?_
  intro a b hab
  rcases hab with ⟨y, hy, h1b, h2b⟩
  subst hy
  exact ⟨h1b, h2b⟩

theorem addFlagField_perm (l : List Tagged) :
    (addFlagField l).2.Perm (addFlagField l).1 := by
  show (((flagGroups l).map (fun g => g.map (flagUpd l))).flatten).Perm
    ((flagBase l).map (flagUpd l))
  rw [← List.map_flatten]
  refine List.Perm.map _ ?_
  show ((flagGroups l).flatten).Perm (flagBase l)
  unfold flagGroups
  refine flatten_filter_perm (fun e => e.2.2.MessageGroupId) (flagBase l) (flagKeys l)
    (firstKeys_nodup _) ?_
  intro e he
  unfold flagKeys
  rw [firstKeys_mem]
  have hsnd : e.2 ∈ l.map flagTwo := by
    unfold flagBase at he
    have := List.mem_map_of_mem Prod.snd he
    rwa [List.enum_map_snd] at this
  exact List.mem_map_of_mem (fun t => t.2.MessageGroupId) hsnd

theorem getResults_forall₂ : ∀ (l : List Tagged) (out : List ResItem),
    getResults l = some out →
      List.Forall₂ (fun a c => get_result_item a.2 = some c) l out := by
  intro l
  induction l with
  | nil =>
    intro out h
    rw [getResults] at h
    cases h
    exact List.Forall₂.nil
  | cons x xs ih =>
    intro out h
    rw [getResults] at h
    cases hg : get_result_item x.2 with
    | none => rw [hg] at h; cases h
    | some y =>
      rw [hg] at h
      cases hr : getResults xs with
      | none => rw [hr] at h; cases h
      | some ys =>
        rw [hr] at h
        cases h
        exact List.Forall₂.cons hg (ih ys hr)

theorem get_result_item_some (it : Item) (c : ResItem) (h : get_result_item it = some c) :
    it.NextId = some c.NextId ∧ c.MessageId = it.MessageId ∧ c.Typ = it.Typ := by
  unfold get_result_item at h
  cases hn : it.NextId with
  | none => rw [hn] at h; cases h
  | some v =>
    rw [hn] at h
    cases h
    exact ⟨rfl, rfl, rfl⟩

theorem typeOfCond_eq_three (s : String) : typeOfCond s = 3 ↔ s = "Answer" := by
  unfold typeOfCond
  by_cases h1 : s = "FavorRankUp"
  · subst h1; decide
  · rw [if_neg h1]
    by_cases h2 : s = "Answer"
    · subst h2; decide
    · rw [if_neg h2]
      by_cases h3 : s = "momotalkStory"
      · subst h3; decide
      · rw [if_neg h3]
        constructor
        · intro h; exact absurd h (by decide)
        · intro h; exact absurd h h2

theorem langGet_set_same (lng : Lang) (s : String) (c : ResItem) :
    langGet lng (langSet lng s c) = s := by
  cases lng <;> rfl

theorem langGet_set_other (lng lng' : Lang) (s : String) (c : ResItem)
    (h : lng ≠ lng') : langGet lng' (langSet lng s c) = langGet lng' c := by
  cases lng <;> cases lng' <;> first | rfl | exact absurd rfl h

theorem fixLangFold_map_keep {γ : Type} (lng : Lang) (p : ResItem → γ)
    (hp : ∀ s c, p (langSet lng s c) = p c) :
    ∀ (acc : List String) (l : List ResItem),
      (fixLangFold lng acc l).map p = l.map p := by
  intro acc l
  induction l generalizing acc with
  | nil => rfl
  | cons c rest ih =>
    rw [fixLangFold]
    simp only [List.map_cons]
    rw [hp, ih]

theorem fixLangFold_values : ∀ (lng : Lang) (acc : List String) (l : List ResItem),
    (∀ s ∈ (fixLangFold lng acc l).map (langGet lng), s ≠ "" → s ∉ acc) ∧
    List.Pairwise (fun a b => a = b → a = "")
      ((fixLangFold lng acc l).map (langGet lng)) := by
  intro lng acc l
  induction l generalizing acc with
  | nil => exact ⟨fun s hs => absurd hs (List.not_mem_nil s), List.Pairwise.nil⟩
  | cons c rest ih =>
    rw [fixLangFold]
    set v := freshStr acc (fixMarkdownStr (langGet lng c)) with hv
    rcases ih (acc ++ [v]) with ⟨ihf, ihp⟩
    have hvspec := (freshStr_spec acc (fixMarkdownStr (langGet lng c))).1
    rw [← hv] at hvspec
    simp only [List.map_cons, langGet_set_same]
    constructor
    · intro s hs hne
      rcases List.mem_cons.mp hs with rfl | hs
      · rcases hvspec with hnm | hemp
        · exact hnm
        · exact absurd hemp hne
      · intro hin
        exact ihf s hs hne (List.mem_append.mpr (Or.inl hin))
    · refine List.Pairwise.cons ?_ ihp
      intro b hb heq
      by_cases hbe : b = ""
      · rw [heq, hbe]
      · exfalso
        have hnb : b ∉ acc ++ [v] := ihf b hb hbe
        exact hnb (List.mem_append.mpr (Or.inr (by
          rw [← heq]
          exact List.mem_singleton.mpr rfl)))

/-- What the phases after the MessageId adjustment do to each record:
tags, `MessageId` and `MessageCondition` are preserved, `Typ` is derived
from the condition, and `NextId` is unchanged, set to the `MessageId` of
some record, or set to `-1`. -/
theorem msgid_to_after (l : List Tagged) :
    List.Forall₂ (fun a b =>
      b.1 = a.1 ∧
      b.2.MessageId = a.2.MessageId ∧
      b.2.MessageCondition = a.2.MessageCondition ∧
      b.2.Typ = typeOfCond a.2.MessageCondition ∧
      (b.2.NextId = a.2.NextId ∨ b.2.NextId = some (-1) ∨
        ∃ m, (∃ u ∈ l, m = u.2.MessageId) ∧ b.2.NextId = some m))
      l (addFlagField (addTypeField (setLastNext (adjustNextId l)))).1 := by
  have hC := adjustNextId_forall₂ l
  have hL := setLastNext_forall₂ (adjustNextId l)
  have hT : List.Forall₂
      (fun a b => b = (a.1, { a.2 with Typ := typeOfCond a.2.MessageCondition }))
      (setLastNext (adjustNextId l)) (addTypeField (setLastNext (adjustNextId l))) :=
    forall₂_of_map _ (fun _ => rfl)
  have hF := addFlagField_fst_forall₂ (addTypeField (setLastNext (adjustNextId l)))
  refine (forall₂_comp (forall₂_comp (forall₂_comp hC hL) hT) hF).imp ?_
  intro a b hab
  rcases hab with ⟨c3, ⟨c2, ⟨c1, hC1, hL1⟩, hT1⟩, hFa, hFb⟩
  obtain ⟨hC1a, hC1b⟩ := hC1
  subst hT1
  have hb2 : b.2 = { c2.2 with Typ := typeOfCond c2.2.MessageCondition, Flag := b.2.Flag } := hFb
  have hcond2 : c2.2.MessageCondition = a.2.MessageCondition := by
    rcases hL1 with rfl | ⟨_, hc2⟩
    · rcases hC1b with hc1 | ⟨m, _, hc1⟩ <;> rw [hc1]
    · rw [hc2]
      rcases hC1b with hc1 | ⟨m, _, hc1⟩ <;> rw [hc1]
  have hmid2 : c2.2.MessageId = a.2.MessageId := by
    rcases hL1 with rfl | ⟨_, hc2⟩
    · rcases hC1b with hc1 | ⟨m, _, hc1⟩ <;> rw [hc1]
    · rw [hc2]
      rcases hC1b with hc1 | ⟨m, _, hc1⟩ <;> rw [hc1]
  refine ⟨?_, ?_, ?_, ?_, ?_⟩
  · rw [hFa]
    show c2.1 = a.1
    rcases hL1 with rfl | ⟨hc21, _⟩
    · exact hC1a
    · rw [hc21]; exact hC1a
  · rw [hb2]
    exact hmid2
  · rw [hb2]
    exact hcond2
  · rw [hb2]
    show typeOfCond c2.2.MessageCondition = typeOfCond a.2.MessageCondition
    rw [hcond2]
  · rw [hb2]
    show c2.2.NextId = a.2.NextId ∨ c2.2.NextId = some (-1) ∨ _
    rcases hL1 with rfl | ⟨_, hc2⟩
    · rcases hC1b with hc1 | ⟨m, hm, hc1⟩
      · rw [hc1]
        exact Or.inl rfl
      · rw [hc1]
        exact Or.inr (Or.inr ⟨m, hm, rfl⟩)
    · rw [hc2]
      exact Or.inr (Or.inl rfl)

theorem langGet_imagePath (lng : Lang) (c : ResItem) :
    langGet lng { c with ImagePath := replaceImagePath c.ImagePath } = langGet lng c := by
  cases lng <;> rfl

theorem finalChats_map_core (chats0 : List ResItem) :
    (finalChats chats0).map (fun c => (c.MessageId, c.NextId, c.Typ))
      = chats0.map (fun c => (c.MessageId, c.NextId, c.Typ)) := by
  show ((fixLangFold Lang.en [] (fixLangFold Lang.tw [] (fixLangFold Lang.kr []
      (fixLangFold Lang.jp [] chats0)))).map
        (fun c => { c with ImagePath := replaceImagePath c.ImagePath })).map
      (fun c => (c.MessageId, c.NextId, c.Typ)) = _
  rw [List.map_map]
  have hcomp : ((fun c : ResItem => (c.MessageId, c.NextId, c.Typ)) ∘
      (fun c : ResItem => { c with ImagePath := replaceImagePath c.ImagePath }))
      = (fun c : ResItem => (c.MessageId, c.NextId, c.Typ)) := funext (fun _ => rfl)
  rw [hcomp]
  rw [fixLangFold_map_keep Lang.en (fun c : ResItem => (c.MessageId, c.NextId, c.Typ))
      (fun _ _ => rfl),
    fixLangFold_map_keep Lang.tw (fun c : ResItem => (c.MessageId, c.NextId, c.Typ))
      (fun _ _ => rfl),
    fixLangFold_map_keep Lang.kr (fun c : ResItem => (c.MessageId, c.NextId, c.Typ))
      (fun _ _ => rfl),
    fixLangFold_map_keep Lang.jp (fun c : ResItem => (c.MessageId, c.NextId, c.Typ))
      (fun _ _ => rfl)]

theorem finalChats_lang_pairwise (chats0 : List ResItem) (lng : Lang) :
    List.Pairwise (fun a b => a = b → a = "") ((finalChats chats0).map (langGet lng)) := by
  show List.Pairwise _ (((fixLangFold Lang.en [] (fixLangFold Lang.tw [] (fixLangFold Lang.kr []
      (fixLangFold Lang.jp [] chats0)))).map
        (fun c => { c with ImagePath := replaceImagePath c.ImagePath })).map (langGet lng))
  rw [List.map_map]
  have hcomp : ((langGet lng) ∘
      (fun c : ResItem => { c with ImagePath := replaceImagePath c.ImagePath }))
      = langGet lng := funext (fun c => langGet_imagePath lng c)
  rw [hcomp]
  cases lng with
  | jp =>
    rw [fixLangFold_map_keep Lang.en (langGet Lang.jp)
        (fun s c => langGet_set_other Lang.en Lang.jp s c (by decide)),
      fixLangFold_map_keep Lang.tw (langGet Lang.jp)
        (fun s c => langGet_set_other Lang.tw Lang.jp s c (by decide)),
      fixLangFold_map_keep Lang.kr (langGet Lang.jp)
        (fun s c => langGet_set_other Lang.kr Lang.jp s c (by decide))]
    exact (fixLangFold_values Lang.jp [] chats0).2
  | kr =>
    rw [fixLangFold_map_keep Lang.en (langGet Lang.kr)
        (fun s c => langGet_set_other Lang.en Lang.kr s c (by decide)),
      fixLangFold_map_keep Lang.tw (langGet Lang.kr)
        (fun s c => langGet_set_other Lang.tw Lang.kr s c (by decide))]
    exact (fixLangFold_values Lang.kr [] _).2
  | tw =>
    rw [fixLangFold_map_keep Lang.en (langGet Lang.tw)
        (fun s c => langGet_set_other Lang.en Lang.tw s c (by decide))]
    exact (fixLangFold_values Lang.tw [] _).2
  | en =>
    exact (fixLangFold_values Lang.en [] _).2

theorem tags_eq_of_forall₂ {l m : List Tagged}
    (h : List.Forall₂ (fun a b => b.1 = a.1) l m) : tagsOf m = tagsOf l := by
  induction h with
  | nil => rfl
  | @cons a b t₁ t₂ hr _ ih =>
    unfold tagsOf at ih ⊢
    rw [List.filterMap_cons, List.filterMap_cons, hr, ih]

theorem dataZero_tags (d0 : Item) (rest : List Item) :
    tagsOf (dataZero d0 rest) = List.range (d0 :: rest).length := by
  unfold dataZero tagsOf
  rw [List.filterMap_map]
  rw [show (((fun t : Tagged => t.1)) ∘ (fun e : Nat × Item => ((some e.1 : Option Nat), e.2)))
      = (fun e : Nat × Item => some e.1) from rfl]
  rw [show (fun e : Nat × Item => some e.1) = (some ∘ Prod.fst) from rfl]
  rw [List.filterMap_eq_map, List.enum_map_fst]
  rfl

theorem dataZero_ne_nil (d0 : Item) (rest : List Item) : dataZero d0 rest ≠ [] := by
  unfold dataZero
  simp

theorem dataZero_next (d0 : Item) (rest : List Item) :
    ∀ a ∈ dataZero d0 rest, a.2.NextId = none ∨ ∃ x ∈ d0 :: rest, a.2.NextId = x.NextId := by
  intro a ha
  unfold dataZero at ha
  rcases List.mem_map.mp ha with ⟨e, he, rfl⟩
  have hsnd : e.2 ∈ (if d0.MessageCondition = "FavorRankUp" then
      { d0 with PreConditionFavorScheduleId := 0 } else d0) :: rest := by
    have := List.mem_map_of_mem Prod.snd he
    rwa [List.enum_map_snd] at this
  rcases List.mem_cons.mp hsnd with hh | hh
  · refine Or.inr ⟨d0, List.mem_cons_self _ _, ?_⟩
    rw [hh]
    split <;> rfl
  · exact Or.inr ⟨e.2, List.mem_cons_of_mem _ hh, rfl⟩


end BondStory

namespace Comics

/-! ## Lemmas about the retry wrapper -/

theorem retryLoop_count_le {ε α : Type} (f : Nat → Except ε α) :
    ∀ (rem i : Nat), (retryLoop f rem i).2 ≤ rem := by
  intro rem
  induction rem with
  | zero => intro i; exact Nat.le_refl 0
  | succ n ih =>
    intro i
    rw [retryLoop]
    cases hf : f i with
    | ok a => exact Nat.succ_le_succ (Nat.zero_le n)
    | error e =>
      have := ih (i + 1)
      simpa using Nat.succ_le_succ this

theorem retryLoop_success {ε α : Type} (f : Nat → Except ε α) (a : α) :
    ∀ (rem i k : Nat), i ≤ k → k < i + rem →
      (∀ j, i ≤ j → j < k → ∃ e, f j = .error e) → f k = .ok a →
      retryLoop f rem i = (some a, k - i + 1) := by
  intro rem
  induction rem with
  | zero => intro i k h1 h2 _ _; omega
  | succ n ih =>
    intro i k h1 h2 herr hok
    rw [retryLoop]
    by_cases hik : i = k
    · subst hik
      rw [hok]
      have : i - i + 1 = 1 := by omega
      rw [this]
    · have hi : i < k := Nat.lt_of_le_of_ne h1 hik
      rcases herr i (Nat.le_refl i) hi with ⟨e, he⟩
      rw [he]
      have hrec := ih (i + 1) k (by omega) (by omega)
        (fun j hj1 hj2 => herr j (by omega) hj2) hok
      rw [hrec]
      have : k - (i + 1) + 1 + 1 = k - i + 1 := by omega
      rw [this]

theorem retryLoop_all_fail {ε α : Type} (f : Nat → Except ε α) :
    ∀ (rem i : Nat), (∀ j, i ≤ j → j < i + rem → ∃ e, f j = .error e) →
      retryLoop f rem i = (none, rem) := by
  intro rem
  induction rem with
  | zero => intro i _; rfl
  | succ n ih =>
    intro i herr
    rw [retryLoop]
    rcases herr i (Nat.le_refl i) (by omega) with ⟨e, he⟩
    rw [he, ih (i + 1) (fun j hj1 hj2 => herr j (by omega) (by omega))]

end Comics

namespace Stickers

/-! ## Lemmas about the build_table loop -/

theorem buildTableLoop_spec {κ : Type} (matchKeys : String → List κ) :
    ∀ (sl : List (String × String)), (sl.map (fun p => p.1)).Nodup →
      (∀ p ∈ (buildTableLoop matchKeys sl).1, p.1 ∈ sl.map (fun q => q.1)) ∧
      (∀ k n, (k, n) ∈ sl →
        ((∃ m, (k, m) ∈ (buildTableLoop matchKeys sl).1) ↔ (matchKeys n).length = 1)) ∧
      (∀ k n, (k, n) ∈ sl → (matchKeys n).length ≠ 1 →
        (k ++ " - " ++ n) ∈ (buildTableLoop matchKeys sl).2) := by
  intro sl
  induction sl with
  | nil =>
    intro _
    refine ⟨fun p hp => absurd hp (List.not_mem_nil p), fun k n hkn => absurd hkn (List.not_mem_nil _),
      fun k n hkn _ => absurd hkn (List.not_mem_nil _)⟩
  | cons hd tl ih =>
    obtain ⟨k0, n0⟩ := hd
    intro hnd
    have hnd2 : ((k0, n0) :: tl).map (fun p => p.1) = k0 :: tl.map (fun p => p.1) := rfl
    rw [hnd2] at hnd
    rcases List.nodup_cons.mp hnd with ⟨hk0, hndt⟩
    rcases ih hndt with ⟨ih1, ih2, ih3⟩
    rw [buildTableLoop]
    rcases hm : matchKeys n0 with _ | ⟨m, _ | ⟨m2, ms⟩⟩
    · -- no match: error appended
      refine ⟨?_, ?_, ?_⟩
      · intro p hp
        exact List.mem_cons_of_mem _ (ih1 p hp)
      · intro k n hkn
        rcases List.mem_cons.mp hkn with he | hkn
        · injection he with he1 he2
          subst he1; subst he2
          constructor
          · rintro ⟨m', hm'⟩
            exact absurd (ih1 (k, m') hm') hk0
          · intro hc
            rw [hm] at hc
            simp at hc
        · exact ih2 k n hkn
      · intro k n hkn hne
        rcases List.mem_cons.mp hkn with he | hkn
        · injection he with he1 he2
          subst he1; subst he2
          exact List.mem_cons_self _ _
        · exact List.mem_cons_of_mem _ (ih3 k n hkn hne)
    · -- exactly one match: mapping extended
      refine ⟨?_, ?_, ?_⟩
      · intro p hp
        rcases List.mem_cons.mp hp with rfl | hp
        · exact List.mem_cons_self _ _
        · exact List.mem_cons_of_mem _ (ih1 p hp)
      · intro k n hkn
        rcases List.mem_cons.mp hkn with he | hkn
        · injection he with he1 he2
          subst he1; subst he2
          constructor
          · intro _
            simp [hm]
          · intro _
            exact ⟨m, List.mem_cons_self _ _⟩
        · have hkne : k ≠ k0 := by
            intro he
            rw [he] at hkn
            exact hk0 (List.mem_map_of_mem (fun p => p.1) hkn)
          constructor
          · rintro ⟨m', hm'⟩
            rcases List.mem_cons.mp hm' with he | hm'
            · injection he with he1 _
              exact absurd he1 hkne
            · exact (ih2 k n hkn).mp ⟨m', hm'⟩
          · intro hc
            rcases (ih2 k n hkn).mpr hc with ⟨m', hm'⟩
            exact ⟨m', List.mem_cons_of_mem _ hm'⟩
      · intro k n hkn hne
        rcases List.mem_cons.mp hkn with he | hkn
        · injection he with he1 he2
          subst he1; subst he2
          rw [hm] at hne
          simp at hne
        · exact ih3 k n hkn hne
    · -- several matches: error appended
      refine ⟨?_, ?_, ?_⟩
      · intro p hp
        exact List.mem_cons_of_mem _ (ih1 p hp)
      · intro k n hkn
        rcases List.mem_cons.mp hkn with he | hkn
        · injection he with he1 he2
          subst he1; subst he2
          constructor
          · rintro ⟨m', hm'⟩
            exact absurd (ih1 (k, m') hm') hk0
          · intro hc
            rw [hm] at hc
            simp at hc
        · exact ih2 k n hkn
      · intro k n hkn hne
        rcases List.mem_cons.mp hkn with he | hkn
        · injection he with he1 he2
          subst he1; subst he2
          exact List.mem_cons_self _ _
        · exact List.mem_cons_of_mem _ (ih3 k n hkn hne)

end Stickers

/-! ## Claims -/

namespace BondStory

/-- C8: `process_student_story` reads `data[0]` unconditionally, so the
empty chat list fails with an index error (modelled by `none`);
non-emptiness is a precondition of the operation. -/
theorem c8_empty_input_fails : ∀ st : StudentInfo, process_student_story [] st = none :=
  fun _ => rfl

/-- C3 counterexample: the claim says the call leaves every dialogue
record of the input list unchanged.  At this concrete one-record input
the record shared with the caller (tag `some 0` in the final state of
`data`) has had its `MessageCondition` rewritten from "FavorRankUp" to
"Feedback" in place, because the list copy in the script is shallow. -/
theorem c3_counterexample :
    (processFull
        [{ MessageGroupId := 9
           MessageCondition := "FavorRankUp"
           PreConditionFavorScheduleId := 3
           NextId := some 0 }] { id := 7 }).map
      (fun r => r.dataAfter.filterMap
        (fun t => if t.1 = some 0 then some t.2.MessageCondition else none))
      = some ["Feedback"]
    ∧ ({ MessageGroupId := 9
         MessageCondition := "FavorRankUp"
         PreConditionFavorScheduleId := 3
         NextId := some 0 } : Item).MessageCondition = "FavorRankUp" := by
  constructor
  · decide
  · rfl

/-- C3 amended: `process_student_story` performs no I/O and returns a
newly built result list, and it preserves the input list itself (the
final state of `data` carries the input records, in order, exactly once
each: its tags are `0, ..., n-1`); but the records themselves are
mutated in place through the shallow list copy (see the counterexample). -/
theorem c3_frame_amended :
    ∀ (cl : List Item) (st : StudentInfo) (r : ProcResult),
      processFull cl st = some r → tagsOf r.dataAfter = List.range cl.length := by
  intro cl st r h
  cases cl with
  | nil => rw [processFull] at h; cases h
  | cons d0 rest =>
    rw [processFull] at h
    cases hg : getResults (pipeline (d0 :: rest) st).2 with
    | none => rw [hg] at h; cases h
    | some chats0 =>
      rw [hg] at h
      have hr := (Option.some.inj h).symm
      subst hr
      show tagsOf (pipeline (d0 :: rest) st).1 = _
      rw [pipeline]
      have hF := tags_eq_of_forall₂
        ((addFlagField_fst_forall₂ (addTypeField (setLastNext (adjustNextId
          (adjustMessageId [] (phaseALoop st [] (dataZero d0 rest))))))).imp
          (fun _ _ hab => hab.1))
      rw [hF]
      have hT := tags_eq_of_forall₂
        ((forall₂_of_map (R := fun a b => b.1 = a.1)
          (f := fun t : Tagged => (t.1, { t.2 with Typ := typeOfCond t.2.MessageCondition }))
          (setLastNext (adjustNextId (adjustMessageId [] (phaseALoop st [] (dataZero d0 rest)))))
          (fun _ => rfl)))
      rw [show addTypeField (setLastNext (adjustNextId
            (adjustMessageId [] (phaseALoop st [] (dataZero d0 rest)))))
          = (setLastNext (adjustNextId (adjustMessageId []
              (phaseALoop st [] (dataZero d0 rest))))).map
            (fun t : Tagged => (t.1, { t.2 with Typ := typeOfCond t.2.MessageCondition }))
        from rfl, hT]
      have hL := tags_eq_of_forall₂
        ((setLastNext_forall₂ (adjustNextId (adjustMessageId []
          (phaseALoop st [] (dataZero d0 rest))))).imp
          (fun _ _ hab => by
            rcases hab with rfl | ⟨h1, _⟩
            · rfl
            · exact h1))
      rw [hL]
      have hC := tags_eq_of_forall₂
        ((adjustNextId_forall₂ (adjustMessageId [] (phaseALoop st [] (dataZero d0 rest)))).imp
          (fun _ _ hab => hab.1))
      rw [hC]
      have hB := tags_eq_of_forall₂
        ((adjustMessageId_forall₂ [] (phaseALoop st [] (dataZero d0 rest))).imp
          (fun _ _ hab => hab.1))
      rw [hB]
      rw [phaseALoop_tags st (dataZero d0 rest) []]
      rw [show tagsOf ([] : List Tagged) = [] from rfl]
      rw [dataZero_tags]
      rfl

/-- C3 amended, witness at a concrete input. -/
theorem c3_frame_amended_witness :
    (processFull [{ MessageGroupId := 1, NextId := some 0 }] { id := 1 }).elim False
      (fun r => tagsOf r.dataAfter = List.range 1) := by
  rcases heq : processFull [{ MessageGroupId := 1, NextId := some 0 }] { id := 1 } with _ | r
  · exfalso
    have hs : (processFull [{ MessageGroupId := 1, NextId := some 0 }] { id := 1 }).isSome
        = true := by decide
    rw [heq] at hs
    cases hs
  · exact c3_frame_amended _ _ r heq

/-- C4: in the returned story data, for each of the four language
fields, texts that coincide are empty: the non-empty texts are pairwise
distinct after the zero-width-space deduplication. -/
theorem c4_language_dedup :
    ∀ (cl : List Item) (st : StudentInfo) (info : StoryInfo) (chats : List ResItem),
      process_student_story cl st = some (info, chats) →
      ∀ lng : Lang,
        List.Pairwise (fun a b => a = b → a = "") (chats.map (langGet lng)) := by
  intro cl st info chats h lng
  unfold process_student_story at h
  rcases Option.map_eq_some'.mp h with ⟨r, hr, hri⟩
  injection hri with h1 h2
  subst h2
  cases cl with
  | nil => rw [processFull] at hr; cases hr
  | cons d0 rest =>
    rw [processFull] at hr
    cases hg : getResults (pipeline (d0 :: rest) st).2 with
    | none => rw [hg] at hr; cases hr
    | some chats0 =>
      rw [hg] at hr
      have hrr := (Option.some.inj hr).symm
      subst hrr
      exact finalChats_lang_pairwise chats0 lng

/-- C4, witness at a concrete input with colliding texts. -/
theorem c4_language_dedup_witness :
    (process_student_story
        [{ MessageGroupId := 1, MessageJP := some "hi", NextId := some 0 },
         { MessageGroupId := 2, MessageJP := some "hi", NextId := some 0 }]
        { id := 3 }).elim False
      (fun r => ∀ lng : Lang,
        List.Pairwise (fun a b => a = b → a = "") (r.2.map (langGet lng))) := by
  rcases heq : process_student_story
      [{ MessageGroupId := 1, MessageJP := some "hi", NextId := some 0 },
       { MessageGroupId := 2, MessageJP := some "hi", NextId := some 0 }]
      { id := 3 } with _ | p
  · exfalso
    have hs : (process_student_story
        [{ MessageGroupId := 1, MessageJP := some "hi", NextId := some 0 },
         { MessageGroupId := 2, MessageJP := some "hi", NextId := some 0 }]
        { id := 3 }).isSome = true := by decide
    rw [heq] at hs
    cases hs
  · obtain ⟨info, chats⟩ := p
    exact c4_language_dedup _ _ info chats heq

end BondStory

namespace Comics

/-- C6: the retry(N) wrapper performs at most N invocations, and when
the attempts before `k` raise and attempt `k` returns, the wrapper
returns that first successful result having invoked the function
exactly `k + 1` times (so it re-invokes only after a raising attempt and
stops at the first success). -/
theorem c6_retry_first_success : ∀ {ε α : Type} (times : Nat) (f : Nat → Except ε α),
    (retryRun times f).2 ≤ times ∧
    ∀ (k : Nat) (a : α), k < times → (∀ j, j < k → ∃ e, f j = Except.error e) →
      f k = Except.ok a → retryRun times f = (some a, k + 1) := by
  intro ε α times f
  constructor
  · exact retryLoop_count_le f times 0
  · intro k a hk herr hok
    have h := retryLoop_success f a times 0 k (Nat.zero_le k) (by omega)
      (fun j _ hj2 => herr j hj2) hok
    simpa using h

/-- C6, witness: the first attempt raises, the second returns 7. -/
theorem c6_retry_first_success_witness :
    retryRun 3 (fun n => if n = 0 then (Except.error () : Except Unit Nat) else Except.ok 7)
      = (some 7, 2) ∧
    (retryRun 3 (fun n => if n = 0 then (Except.error () : Except Unit Nat)
        else Except.ok 7)).2 ≤ 3 := by
  have h := c6_retry_first_success 3
    (fun n => if n = 0 then (Except.error () : Except Unit Nat) else Except.ok 7)
  refine ⟨?_, h.1⟩
  have h2 := h.2 1 7 (by decide)
    (fun j hj => ⟨(), by
      have hj0 : j = 0 := by omega
      subst hj0
      rfl⟩) rfl
  exact h2

/-- C9: when every one of the N attempts raises, the wrapper suppresses
the exception and returns the implicit Python None after exactly N
invocations; the caller never observes the underlying error. -/
theorem c9_retry_all_fail_none : ∀ {ε α : Type} (times : Nat) (f : Nat → Except ε α),
    (∀ j, j < times → ∃ e, f j = Except.error e) → retryRun times f = (none, times) := by
  intro ε α times f herr
  exact retryLoop_all_fail f times 0 (fun j _ hj2 => herr j (by omega))

/-- C9, witness: two attempts, both raising. -/
theorem c9_retry_all_fail_none_witness :
    retryRun 2 (fun _ => (Except.error () : Except Unit Nat)) = (none, 2) :=
  c9_retry_all_fail_none 2 (fun _ => (Except.error () : Except Unit Nat))
    (fun _ _ => ⟨(), rfl⟩)

end Comics

namespace BatchImage

/-- C5 (code bug): the script only schedules `main()` on an event loop
it never runs, so no avatar file is ever written before the script ends,
even though the scheduled coroutine would have written one file per
fandom avatar (shown at a concrete input). -/
theorem c5_script_never_writes :
    (∀ avatarLists : List (List String), scriptWrites avatarLists = []) ∧
    mainTaskFiles [["/fandom/a/b.png"]] = ["Avatars/Fandom/b.png"] :=
  ⟨fun _ => rfl, by decide⟩

end BatchImage

namespace Stickers

/-- C10: for both site tools, build_table maps exactly the SchaleDB ids
whose student name matches exactly one site-side student, and appends
the text key, dash, name to the errors list for ids with zero or
several matches.  The hypothesis is that the SchaleDB ids are distinct,
which holds because they are the keys of a Python dict. -/
theorem c10_build_table :
    ∀ (kl : List (Int × String)) (gl : List GamekeeStudent)
      (sl : List (String × String)), (sl.map (fun p => p.1)).Nodup →
      ((∀ p ∈ (kivo_build_table kl sl).1, p.1 ∈ sl.map (fun q => q.1)) ∧
        (∀ k n, (k, n) ∈ sl →
          ((∃ m, (k, m) ∈ (kivo_build_table kl sl).1) ↔ (kivoMatches kl n).length = 1)) ∧
        (∀ k n, (k, n) ∈ sl → (kivoMatches kl n).length ≠ 1 →
          (k ++ " - " ++ n) ∈ (kivo_build_table kl sl).2)) ∧
      ((∀ p ∈ (gamekee_build_table gl sl).1, p.1 ∈ sl.map (fun q => q.1)) ∧
        (∀ k n, (k, n) ∈ sl →
          ((∃ m, (k, m) ∈ (gamekee_build_table gl sl).1) ↔ (gamekeeMatches gl n).length = 1)) ∧
        (∀ k n, (k, n) ∈ sl → (gamekeeMatches gl n).length ≠ 1 →
          (k ++ " - " ++ n) ∈ (gamekee_build_table gl sl).2)) :=
  fun kl gl sl hnd =>
    ⟨buildTableLoop_spec (kivoMatches kl) sl hnd,
     buildTableLoop_spec (gamekeeMatches gl) sl hnd⟩

/-- C10, witness: id "1" has the unique kivo match "A" and is mapped;
id "2" has two kivo matches and is appended to the errors; on the
GameKee side "A" occurs in two alias lists, so id "1" is appended to
the errors there. -/
theorem c10_build_table_witness :
    (∃ m, ("1", m) ∈ (kivo_build_table [((10 : Int), "A"), (11, "B"), (12, "B")]
        [("1", "A"), ("2", "B")]).1) ∧
    ("2" ++ " - " ++ "B") ∈ (kivo_build_table [((10 : Int), "A"), (11, "B"), (12, "B")]
        [("1", "A"), ("2", "B")]).2 ∧
    ("1" ++ " - " ++ "A") ∈ (gamekee_build_table
        [{ content_id := 5, name := "A", name_alias := "x,y" },
         { content_id := 6, name := "C", name_alias := "A" }]
        [("1", "A"), ("2", "B")]).2 := by
  have h := c10_build_table [((10 : Int), "A"), (11, "B"), (12, "B")]
    [{ content_id := 5, name := "A", name_alias := "x,y" },
     { content_id := 6, name := "C", name_alias := "A" }]
    [("1", "A"), ("2", "B")] (by decide)
  exact ⟨(h.1.2.1 "1" "A" (by decide)).mpr (by decide),
    h.1.2.2 "2" "B" (by decide) (by decide),
    h.2.2.2 "1" "A" (by decide) (by decide)⟩

end Stickers

namespace BondStory

/-- C1 counterexample: the claim says every returned record points with
`NextId` either to -1 or to the `MessageId` of a strictly later record,
and that records carrying the final `MessageId` have `NextId` -1.  At
this concrete input the first record keeps its input `NextId` 42, which
is neither -1 nor any later `MessageId`, so the claimed property
evaluates to false on the returned story data. -/
theorem c1_counterexample :
    (process_student_story
        [{ MessageGroupId := 1, NextGroupId := 999, NextId := some 42 },
         { MessageGroupId := 2, NextGroupId := 555, NextId := some 0 }]
        { id := 7 }).map
      (fun r => decide (
        (∀ i, i < r.2.length →
          ((r.2.getD i ⟨0, 0, 0, 0, "", "", "", "", "", ""⟩).NextId = -1 ∨
           ∃ c2 ∈ r.2.drop (i + 1),
             c2.MessageId = (r.2.getD i ⟨0, 0, 0, 0, "", "", "", "", "", ""⟩).NextId)) ∧
        ∀ c ∈ r.2, c.MessageId = (r.2.getLastD ⟨0, 0, 0, 0, "", "", "", "", "", ""⟩).MessageId →
          c.NextId = -1)) = some false := by
  decide

/-- C1 amended: in the returned story data every record points with
`NextId` to -1, to the `MessageId` of some record of the returned list
(grouping may reorder records, so not necessarily a later one), or
carries an input record's `NextId` value unchanged (records that no
later record matches are never assigned); and at least one record has
`NextId` -1. -/
theorem c1_nextid_amended :
    ∀ (cl : List Item) (st : StudentInfo) (info : StoryInfo) (chats : List ResItem),
      process_student_story cl st = some (info, chats) →
      (∀ c ∈ chats, c.NextId = -1 ∨ (∃ c2 ∈ chats, c2.MessageId = c.NextId) ∨
        (∃ x ∈ cl, x.NextId = some c.NextId)) ∧
      ∃ c ∈ chats, c.NextId = -1 := by
  intro cl st info chats h
  unfold process_student_story at h
  rcases Option.map_eq_some'.mp h with ⟨r, hr, hri⟩
  injection hri with h1 h2
  subst h2
  clear h1 h
  cases cl with
  | nil => rw [processFull] at hr; cases hr
  | cons d0 rest =>
    rw [processFull] at hr
    cases hg : getResults (pipeline (d0 :: rest) st).2 with
    | none => rw [hg] at hr; cases hr
    | some chats0 =>
      rw [hg] at hr
      have hrr := (Option.some.inj hr).symm
      subst hrr
      have hpipe : pipeline (d0 :: rest) st
          = addFlagField (addTypeField (setLastNext (adjustNextId
              (adjustMessageId [] (phaseALoop st [] (dataZero d0 rest)))))) := by
        rw [pipeline]
      set DA := phaseALoop st [] (dataZero d0 rest) with hDA
      set D2 := adjustMessageId [] DA with hD2
      have hafter := msgid_to_after D2
      have hperm : (pipeline (d0 :: rest) st).2.Perm
          ((addFlagField (addTypeField (setLastNext (adjustNextId D2)))).1) := by
        rw [hpipe]
        exact addFlagField_perm _
      have hga := getResults_forall₂ _ chats0 hg
      have hcore := finalChats_map_core chats0
      have hNA : ∀ b ∈ DA, b.2.NextId = none ∨ ∃ x ∈ (d0 :: rest), b.2.NextId = x.NextId := by
        rw [hDA]
        exact phaseALoop_next st
          (fun o => o = none ∨ ∃ x ∈ (d0 :: rest), o = x.NextId) (Or.inl rfl)
          (dataZero d0 rest) [] (fun a ha => absurd ha (List.not_mem_nil a))
          (dataZero_next d0 rest)
      have hN2 : ∀ b ∈ D2, b.2.NextId = none ∨ ∃ x ∈ (d0 :: rest), b.2.NextId = x.NextId := by
        intro b hb
        rw [hD2] at hb
        rcases forall₂_mem_right (adjustMessageId_forall₂ [] DA) b hb with ⟨a, ha, _, h2b⟩
        rw [show b.2.NextId = a.2.NextId from by rw [h2b]]
        exact hNA a ha
      constructor
      · intro c hc
        obtain ⟨c0, hc0, hcoreEq⟩ := mem_of_map_eq hcore c hc
        injection hcoreEq with hmidE hrest1
        injection hrest1 with hnidE htypE
        obtain ⟨ge, hge, hgec⟩ := forall₂_mem_right hga c0 hc0
        obtain ⟨hgNid, hgMid, hgTyp⟩ := get_result_item_some ge.2 c0 hgec
        have hgeD : ge ∈ (addFlagField (addTypeField (setLastNext (adjustNextId D2)))).1 :=
          hperm.mem_iff.mp hge
        obtain ⟨a2, ha2, hrel⟩ := forall₂_mem_right hafter ge hgeD
        rcases hrel.2.2.2.2 with hne | hne | ⟨m, ⟨u, hu, hmu⟩, hne⟩
        · rcases hN2 a2 ha2 with h0 | ⟨x, hx, h0⟩
          · rw [hne, h0] at hgNid
            cases hgNid
          · right; right
            exact ⟨x, hx, by rw [← h0, ← hne, hgNid, hnidE]⟩
        · left
          rw [hne] at hgNid
          rw [← hnidE]
          exact (Option.some.inj hgNid).symm
        · right; left
          obtain ⟨bAf, hbAf, hbrel⟩ := forall₂_mem_left hafter u hu
          have hbAfG : bAf ∈ (pipeline (d0 :: rest) st).2 := hperm.mem_iff.mpr hbAf
          obtain ⟨c2x, hc2x, hc2rel⟩ := forall₂_mem_left hga bAf hbAfG
          obtain ⟨_, hc2mid, _⟩ := get_result_item_some bAf.2 c2x hc2rel
          obtain ⟨c2, hc2, hc2core⟩ := mem_of_map_eq hcore.symm c2x hc2x
          injection hc2core with e1 erest
          injection erest with e2 e3
          refine ⟨c2, hc2, ?_⟩
          have hcm : c.NextId = m := by
            have h5 : some c0.NextId = some m := by rw [← hgNid, hne]
            rw [← hnidE]
            exact Option.some.inj h5
          rw [e1, hc2mid, hbrel.2.1, ← hmu, hcm]
      · have hAne : DA ≠ [] := by
          rw [hDA]
          exact phaseALoop_ne_nil st (dataZero d0 rest) [] (Or.inr (dataZero_ne_nil d0 rest))
        have hlen2 : D2.length = DA.length := by
          rw [hD2]
          exact ((adjustMessageId_forall₂ [] DA).length_eq).symm
        have hlen3 : (adjustNextId D2).length = D2.length :=
          ((adjustNextId_forall₂ D2).length_eq).symm
        have h3ne : adjustNextId D2 ≠ [] := by
          intro hnil
          apply hAne
          refine List.length_eq_zero.mp ?_
          rw [← hlen2, ← hlen3, hnil]
          rfl
        obtain ⟨b3, hb3, hb3n⟩ := setLastNext_last (adjustNextId D2) h3ne
        have hbT : ((b3.1, { b3.2 with Typ := typeOfCond b3.2.MessageCondition }) : Tagged)
            ∈ addTypeField (setLastNext (adjustNextId D2)) := List.mem_map_of_mem _ hb3
        obtain ⟨bAf, hbAf, hAfrel⟩ := forall₂_mem_left
          (addFlagField_fst_forall₂ (addTypeField (setLastNext (adjustNextId D2)))) _ hbT
        have hbAfN : bAf.2.NextId = some (-1) := by
          rw [hAfrel.2]
          exact hb3n
        have hbAfG : bAf ∈ (pipeline (d0 :: rest) st).2 := hperm.mem_iff.mpr hbAf
        obtain ⟨c0, hc0, hc0rel⟩ := forall₂_mem_left hga bAf hbAfG
        obtain ⟨hc0n, _, _⟩ := get_result_item_some bAf.2 c0 hc0rel
        have hc0neg : c0.NextId = -1 := by
          rw [hbAfN] at hc0n
          exact (Option.some.inj hc0n).symm
        obtain ⟨c, hc, hccore⟩ := mem_of_map_eq hcore.symm c0 hc0
        injection hccore with e1 erest
        injection erest with e2 e3
        exact ⟨c, hc, by rw [e2, hc0neg]⟩

/-- C1 amended, witness at a concrete input. -/
theorem c1_nextid_amended_witness :
    (process_student_story [{ MessageGroupId := 4, NextId := some 0 }] { id := 2 }).elim False
      (fun r =>
        (∀ c ∈ r.2, c.NextId = -1 ∨ (∃ c2 ∈ r.2, c2.MessageId = c.NextId) ∨
          (∃ x ∈ [({ MessageGroupId := 4, NextId := some 0 } : Item)],
            x.NextId = some c.NextId)) ∧
        ∃ c ∈ r.2, c.NextId = -1) := by
  rcases heq : process_student_story [{ MessageGroupId := 4, NextId := some 0 }] { id := 2 }
    with _ | p
  · exfalso
    have hs : (process_student_story [{ MessageGroupId := 4, NextId := some 0 }]
        { id := 2 }).isSome = true := by decide
    rw [heq] at hs
    cases hs
  · obtain ⟨info, chats⟩ := p
    exact c1_nextid_amended _ _ info chats heq

/-- C2 counterexample: the claim says the deduplication loop guarantees
pairwise distinct MessageIds for all records.  Records with condition
"Answer" skip the deduplication (they are keyed directly by their
MessageGroupId), so two Answer records of the same group collide: at
this concrete input the returned story data has two records with
MessageId 5. -/
theorem c2_counterexample :
    (process_student_story
        [{ MessageGroupId := 5, MessageCondition := "Answer", NextId := some 0 },
         { MessageGroupId := 5, MessageCondition := "Answer", NextId := some 0 }]
        { id := 7 }).map
      (fun r => decide (List.Pairwise (fun a b => a.MessageId ≠ b.MessageId) r.2))
      = some false := by
  decide

/-- C2 amended: any two returned records that are not Answer records
(`Type` 3) carry distinct MessageIds; Answer records reuse their group
id as MessageId, bypass the freshness loop, and may collide. -/
theorem c2_messageid_amended :
    ∀ (cl : List Item) (st : StudentInfo) (info : StoryInfo) (chats : List ResItem),
      process_student_story cl st = some (info, chats) →
      List.Pairwise (fun a b => a.Typ ≠ 3 → b.Typ ≠ 3 → a.MessageId ≠ b.MessageId) chats := by
  intro cl st info chats h
  unfold process_student_story at h
  rcases Option.map_eq_some'.mp h with ⟨r, hr, hri⟩
  injection hri with h1 h2
  subst h2
  clear h1 h
  cases cl with
  | nil => rw [processFull] at hr; cases hr
  | cons d0 rest =>
    rw [processFull] at hr
    cases hg : getResults (pipeline (d0 :: rest) st).2 with
    | none => rw [hg] at hr; cases hr
    | some chats0 =>
      rw [hg] at hr
      have hrr := (Option.some.inj hr).symm
      subst hrr
      have hpipe : pipeline (d0 :: rest) st
          = addFlagField (addTypeField (setLastNext (adjustNextId
              (adjustMessageId [] (phaseALoop st [] (dataZero d0 rest)))))) := by
        rw [pipeline]
      set DA := phaseALoop st [] (dataZero d0 rest) with hDA
      set D2 := adjustMessageId [] DA with hD2
      have hafter := msgid_to_after D2
      have hperm : (pipeline (d0 :: rest) st).2.Perm
          ((addFlagField (addTypeField (setLastNext (adjustNextId D2)))).1) := by
        rw [hpipe]
        exact addFlagField_perm _
      have hga := getResults_forall₂ _ chats0 hg
      have hcore := finalChats_map_core chats0
      -- pairwise on the MessageId-adjusted records
      have hp2 : List.Pairwise
          (fun a b : Tagged => b.2.MessageCondition ≠ "Answer" →
            a.2.MessageId ≠ b.2.MessageId) D2 := by
        rw [hD2]
        exact (adjustMessageId_fresh [] DA).2
      -- transport to the final data state
      have hpAfter : List.Pairwise
          (fun a b : Tagged => b.2.MessageCondition ≠ "Answer" →
            a.2.MessageId ≠ b.2.MessageId)
          ((addFlagField (addTypeField (setLastNext (adjustNextId D2)))).1) := by
        refine pairwise_of_forall₂ hafter hp2 ?_
        intro a b a2 b2 hsa hsb hr2 hbans
        rw [hsa.2.1, hsb.2.1]
        exact hr2 (by rw [← hsb.2.2.1]; exact hbans)
      -- strengthen to the Type-based symmetric relation
      have htypAfter : ∀ x ∈ (addFlagField (addTypeField (setLastNext (adjustNextId D2)))).1,
          x.2.Typ = typeOfCond x.2.MessageCondition := by
        intro x hx
        rcases forall₂_mem_right hafter x hx with ⟨a, _, _, _, hcnd, htp, _⟩
        rw [htp, hcnd]
      have hp3 : List.Pairwise
          (fun a b : Tagged => a.2.Typ ≠ 3 → b.2.Typ ≠ 3 →
            a.2.MessageId ≠ b.2.MessageId)
          ((addFlagField (addTypeField (setLastNext (adjustNextId D2)))).1) := by
        refine List.Pairwise.imp_of_mem ?_ hpAfter
        intro a b _ hbm hr3 _ hbt
        refine hr3 ?_
        intro hbans
        exact hbt (by rw [htypAfter b hbm, hbans]; rfl)
      -- transport along the grouping permutation
      have hsymm : ∀ {x y : Tagged},
          (x.2.Typ ≠ 3 → y.2.Typ ≠ 3 → x.2.MessageId ≠ y.2.MessageId) →
          (y.2.Typ ≠ 3 → x.2.Typ ≠ 3 → y.2.MessageId ≠ x.2.MessageId) :=
        fun h hy hx => (h hx hy).symm
      have hpG : List.Pairwise
          (fun a b : Tagged => a.2.Typ ≠ 3 → b.2.Typ ≠ 3 →
            a.2.MessageId ≠ b.2.MessageId)
          ((pipeline (d0 :: rest) st).2) :=
        (List.Perm.pairwise_iff hsymm hperm).mpr hp3
      -- transport to the extracted records
      have hp0 : List.Pairwise
          (fun a b : ResItem => a.Typ ≠ 3 → b.Typ ≠ 3 → a.MessageId ≠ b.MessageId)
          chats0 := by
        refine pairwise_of_forall₂ hga hpG ?_
        intro a b a2 b2 hga2 hgb2 hr3 hat hbt
        obtain ⟨_, ham, hat2⟩ := get_result_item_some a.2 a2 hga2
        obtain ⟨_, hbm, hbt2⟩ := get_result_item_some b.2 b2 hgb2
        rw [ham, hbm]
        exact hr3 (by rw [← hat2]; exact hat) (by rw [← hbt2]; exact hbt)
      -- transport to the final chats through the core projection
      have hpt : List.Pairwise
          (fun p q : Int × Int × Int => p.2.2 ≠ 3 → q.2.2 ≠ 3 → p.1 ≠ q.1)
          (chats0.map (fun c => (c.MessageId, c.NextId, c.Typ))) :=
        List.pairwise_map.mpr hp0
      rw [← hcore] at hpt
      have := List.pairwise_map.mp hpt
      exact this

/-- C2 amended, witness at a concrete input. -/
theorem c2_messageid_amended_witness :
    (process_student_story [{ MessageGroupId := 6, NextId := some 0 }] { id := 5 }).elim False
      (fun r => List.Pairwise
        (fun a b => a.Typ ≠ 3 → b.Typ ≠ 3 → a.MessageId ≠ b.MessageId) r.2) := by
  rcases heq : process_student_story [{ MessageGroupId := 6, NextId := some 0 }] { id := 5 }
    with _ | p
  · exfalso
    have hs : (process_student_story [{ MessageGroupId := 6, NextId := some 0 }]
        { id := 5 }).isSome = true := by decide
    rw [heq] at hs
    cases hs
  · obtain ⟨info, chats⟩ := p
    exact c2_messageid_amended _ _ info chats heq

end BondStory
